import Mathlib

/-!
Verification development for the EPUB container parser of EBookEdit
(src/plugins/epubplugin/epubcontainer.cpp).  The parsing pipeline of
EPubContainer — openFile, parseMimetype, parseContainer, parseContentFile
with its metadata/manifest/spine/guide sub-parsers, and parseToc — is
embedded shallowly: the zip archive becomes a finite list of named
entries, Qt DOM documents become a small XML node type, QMap/QSet become
association lists and duplicate-free lists, and the two diagnostic
channels (the errorHappened signal and QLOG_WARN) become a severity-tagged
diagnostic trace threaded through the state.
-/

set_option maxHeartbeats 1000000

namespace EBookEdit

/-- Severity of an emitted diagnostic: err models an emission of the
errorHappened signal, warn models a QLOG_WARN log message. -/
inductive Sev where
  | warn : Sev
  | err : Sev
deriving Repr, DecidableEq

/-- Shallow model of a Qt DOM node (QDomNode): an element carrying its
namespace prefix ns, its local tag name, its attribute list and its child
nodes, or a character-data node. -/
inductive XNode where
  | elem (ns tag : String) (attrs : List (String × String)) (children : List XNode)
  | text (s : String)
deriving Repr

/-- QDomElement::attribute: the value of the named attribute, or the
default "" when the attribute is absent. -/
def qAttr (attrs : List (String × String)) (name : String) : String :=
  match attrs.find? (fun p => p.1 == name) with
  | some p => p.2
  | none => ""

/-- Namespace prefix of a node, "" for a non-element (the view produced by
QDomNode::toElement, where a non-element converts to the null element). -/
def XNode.nsOf : XNode → String
  | .elem ns _ _ _ => ns
  | .text _ => ""

/-- Local tag name of a node, "" for a non-element. -/
def XNode.tagOf : XNode → String
  | .elem _ tag _ _ => tag
  | .text _ => ""

/-- Attribute list of a node, [] for a non-element. -/
def XNode.attrsOf : XNode → List (String × String)
  | .elem _ _ attrs _ => attrs
  | .text _ => []

/-- Child list of a node, [] for a non-element. -/
def XNode.childrenOf : XNode → List XNode
  | .elem _ _ _ children => children
  | .text _ => []

/-- Attribute lookup on a node, as QDomElement::attribute. -/
def XNode.attr (n : XNode) (name : String) : String :=
  qAttr n.attrsOf name

mutual

/-- QDomElement::text: the concatenation of all character data contained
in the subtree, in document order. -/
def XNode.textOf : XNode → String
  | .text s => s
  | .elem _ _ _ ch => textOfList ch

/-- Concatenated character data of a node list. -/
def textOfList : List XNode → String
  | [] => ""
  | x :: xs => x.textOf ++ textOfList xs

end

mutual

/-- All elements with the given local tag name in the subtree rooted at
the node, in document (preorder) order, the node itself included when it
matches: the traversal behind QDomDocument::elementsByTagName. -/
def collectByTag (tag : String) : XNode → List XNode
  | .text _ => []
  | .elem ns t attrs ch =>
    (if t == tag then [XNode.elem ns t attrs ch] else []) ++ collectByTagL tag ch

/-- collectByTag over a list of nodes, concatenated in order. -/
def collectByTagL (tag : String) : List XNode → List XNode
  | [] => []
  | x :: xs => collectByTag tag x ++ collectByTagL tag xs

end

/-- QDomElement::elementsByTagName: matching descendant elements of the
node, the node itself excluded. -/
def descByTag (tag : String) (n : XNode) : List XNode :=
  collectByTagL tag n.childrenOf

/-- QDomDocument::elementsByTagName on a parsed document: a document whose
setContent failed behaves as an empty document. -/
def docByTag (tag : String) : Option XNode → List XNode
  | none => []
  | some root => collectByTag tag root

/-- Whether the node is an element with the given local tag name. -/
def isElemTag (tag : String) : XNode → Bool
  | .elem _ t _ _ => t == tag
  | .text _ => false

/-- QDomNode::firstChildElement with a tag filter. -/
def firstChildElem (tag : String) (n : XNode) : Option XNode :=
  n.childrenOf.find? (isElemTag tag)

/-- The element children with the given tag, in order: exactly the
elements visited by firstChildElement followed by repeated
nextSiblingElement with the same tag. -/
def childElemsTag (tag : String) (n : XNode) : List XNode :=
  n.childrenOf.filter (isElemTag tag)

/-- The nodes strictly after the first element with the given tag. -/
def afterFirstElemTag (tag : String) : List XNode → List XNode
  | [] => []
  | x :: xs => if isElemTag tag x then xs else afterFirstElemTag tag xs

/-- Concatenation of the images of a list, used where the source iterates
a node list collected per outer element. -/
def flatMapL {α β : Type} (f : α → List β) : List α → List β
  | [] => []
  | x :: xs => f x ++ flatMapL f xs

/-- QMap insertion (operator[] followed by assignment): the value at an
existing key is replaced in place, a new key is appended. -/
def insertA {α β : Type} [BEq α] (k : α) (v : β) : List (α × β) → List (α × β)
  | [] => [(k, v)]
  | (k', v') :: t => if k == k' then (k, v) :: t else (k', v') :: insertA k v t

/-- Association-list lookup. -/
def lookupA {α β : Type} [BEq α] (k : α) : List (α × β) → Option β
  | [] => none
  | (k', v') :: t => if k' == k then some v' else lookupA k t

/-- QMap<QString, QString>::value with its default-constructed ""
fallback; also the observable behaviour of a const read through
operator[]. -/
def qValue (m : List (String × String)) (k : String) : String :=
  (lookupA k m).getD ""

/-- Key list of an association list, as QMap::keys(). -/
def keysA {α β : Type} : List (α × β) → List α :=
  List.map Prod.fst

/-- QSet::insert: the element is added only when absent. -/
def insertS (x : String) (s : List String) : List String :=
  if s.contains x then s else s ++ [x]

/-- QSet::remove. -/
def removeS (x : String) (s : List String) : List String :=
  s.filter (fun y => !(y == x))

/-- QMap<int, β> insertion, keeping the entry list sorted by key (QMap
iterates in key order); the value at an existing key is replaced. -/
def insertSortedI {β : Type} (k : Int) (v : β) : List (Int × β) → List (Int × β)
  | [] => [(k, v)]
  | (k', v') :: t =>
    if k < k' then (k, v) :: (k', v') :: t
    else if k = k' then (k, v) :: t
    else (k', v') :: insertSortedI k v t

/-- Manifest item record (EPubItem): media type and resolved path. -/
structure EPubItem where
  mimetype : String
  path : String
deriving Repr, DecidableEq

/-- EPubPageReference::StandardType. -/
inductive StandardType where
  | CoverPage | TitlePage | TableOfContents | Index | Glossary
  | Acknowledgements | Bibliography | Colophon | CopyrightPage | Dedication
  | Epigraph | Foreword | ListOfIllustrations | ListOfTables | Notes
  | Preface | Text | Other
deriving Repr, DecidableEq

/-- Guide/page reference (EPubPageReference): the fields the parser
assigns. -/
structure EPubPageReference where
  target : String
  title : String
deriving Repr, DecidableEq

/-- EPubNavPoint: one table-of-contents navigation entry. -/
structure EPubNavPoint where
  classname : String
  id : String
  label : String
  src : String
deriving Repr, DecidableEq

/-- EPubToc: the parsed NCX table of contents. -/
structure EPubToc where
  version : String
  xmlns : String
  xml_lang : String
  title : String
  metadata : List (String × String)
  navmap : List (Int × EPubNavPoint)
deriving Repr, DecidableEq

/-- The default-constructed EPubToc installed by the constructor. -/
def emptyToc : EPubToc :=
  ⟨"", "", "", "", [], []⟩

/-- Pipeline stage names, recorded when a stage function is entered. -/
inductive Stage where
  | mimetype | container | toc
deriving Repr, DecidableEq

/-- The mutable state of one EPubContainer: the member maps and lists the
parser populates, the diagnostic trace (errorHappened emissions and
QLOG_WARN messages in order), and the trace of entered pipeline stages. -/
structure St where
  metadata : List (String × String)
  othermetatags : List (String × List (String × String))
  items : List (String × EPubItem)
  orderedItems : List String
  unorderedItems : List String
  standardReferences : List (StandardType × EPubPageReference)
  otherReferences : List (String × EPubPageReference)
  toc : EPubToc
  diags : List (Sev × String)
  stages : List Stage
deriving Repr, DecidableEq

/-- Fresh container state, as built by the EPubContainer constructor. -/
def st0 : St :=
  ⟨[], [], [], [], [], [], [], emptyToc, [], []⟩

/-- Append one diagnostic to the trace. -/
def addDiag (sev : Sev) (msg : String) (st : St) : St :=
  { st with diags := st.diags ++ [(sev, msg)] }

/-- Emit a QLOG_WARN message. -/
def warnD (msg : String) (st : St) : St :=
  addDiag Sev.warn msg st

/-- Emit the errorHappened signal. -/
def errD (msg : String) (st : St) : St :=
  addDiag Sev.err msg st

/-- One zip entry: its raw bytes, and the result of QDomDocument::setContent
on those bytes (none when the bytes are not well-formed XML; the element
and attribute names carry namespace-processed local names and prefixes). -/
structure ZipEntry where
  raw : String
  xml : Option XNode

/-- A zip archive that opened successfully: its entries by name, in
central-directory order. -/
abbrev Archive := List (String × ZipEntry)

/-- QuaZip::setCurrentFile followed by QuaZipFile::open: the named entry,
when present. -/
def findEntry (arch : Archive) (name : String) : Option ZipEntry :=
  (arch.find? (fun p => p.1 == name)).map Prod.snd

/-- QuaZip::getFileNameList. -/
def fileNames (arch : Archive) : List String :=
  arch.map Prod.fst

/-! Path resolution used by parseContentFile and parseManifestItem. -/

/-- Index of the last occurrence of a character in a character list, -1
when absent: QString::lastIndexOf. -/
def lastIdxC (c : Char) : List Char → Int
  | [] => -1
  | x :: xs =>
    let r := lastIdxC c xs
    if r ≥ 0 then r + 1 else if x = c then 0 else -1

/-- QString::lastIndexOf for a single character. -/
def qLastIndexOf (s : String) (c : Char) : Int :=
  lastIdxC c s.toList

/-- QString::left. -/
def strTake (s : String) (n : Nat) : String :=
  (s.toList.take n).asString

/-- Directory part computed by parseContentFile: the characters up to and
including the last slash when its index is strictly positive, otherwise
the empty string. -/
def contentFileFolder (filepath : String) : String :=
  let separatorIndex := qLastIndexOf filepath '/'
  if separatorIndex > 0 then strTake filepath (separatorIndex + 1).toNat else ""

/-- One step of component normalization behind QDir::cleanPath: drop ".",
resolve ".." against the stack (a ".." at the root of an absolute path
disappears, a leading ".." of a relative path is kept), push anything
else. The stack holds the kept components in reverse. -/
def cleanStep (absolute : Bool) (acc : List String) (comp : String) : List String :=
  if comp == "." then acc
  else if comp == ".." then
    match acc with
    | [] => if absolute then [] else [".."]
    | c :: rest => if c == ".." then ".." :: acc else rest
  else comp :: acc

/-- Split a character list at every slash; components may be empty. -/
def splitSlashAux (cur : List Char) : List Char → List String
  | [] => [cur.asString]
  | c :: cs =>
    if c = '/' then cur.asString :: splitSlashAux [] cs
    else splitSlashAux (cur ++ [c]) cs

/-- Join path components with slashes. -/
def joinSlash : List String → String
  | [] => ""
  | [c] => c
  | c :: cs => c ++ "/" ++ joinSlash cs

/-- Model of QDir::cleanPath on forward-slash paths (the only separator in
zip entry names): collapses repeated separators, removes "." components
and resolves ".." components. -/
def cleanPath (p : String) : String :=
  let absolute := p.toList.head? = some '/'
  let comps := (splitSlashAux [] p.toList).filter (fun c => !(c == ""))
  let stack := (comps.foldl (cleanStep absolute) []).reverse
  let body := joinSlash stack
  if absolute then "/" ++ body else body

/-! The parsing functions of EPubContainer, translated branch for
branch. Each returns its C++ bool result next to the updated state. -/

/-- Store step shared by all branches of parseMetadataItem: a pair whose
resolved name or value is empty is discarded (return false); otherwise the
pair is stored and, when the element carried attributes, its attribute map
is stored under the same name in m_othermetatags. -/
def storeMeta (name value : String) (attrs : List (String × String)) (st : St) : Bool × St :=
  if name == "" || value == "" then (false, st)
  else
    let st := { st with metadata := insertA name value st.metadata }
    let st :=
      if attrs.isEmpty then st
      else { st with othermetatags := insertA name attrs st.othermetatags }
    (true, st)

/-- EPubContainer::parseMetadataItem. The input node is viewed through
QDomNode::toElement, so a non-element child behaves as the null element
(empty tag name, prefix, attributes and text). The read of
m_metadata["creator"] is modelled as a lookup with the "" default, the
observable behaviour of QMap::operator[] through QMap::value. -/
def parseMetadataItem (node : XNode) (st : St) : Bool × St :=
  let tagName := node.tagOf
  let attrs := node.attrsOf
  if tagName == "meta" then
    storeMeta (qAttr attrs "name") (qAttr attrs "content") attrs st
  else if node.nsOf != "dc" then
    (false, warnD ("Unsupported metadata tag " ++ tagName) st)
  else if tagName == "date" then
    storeMeta (qAttr attrs "event") node.textOf attrs st
  else if tagName == "creator" then
    let v :=
      if qValue st.metadata "creator" == "" then node.textOf
      else qValue st.metadata "creator" ++ "; " ++ node.textOf
    storeMeta "creator" v attrs st
  else
    storeMeta tagName node.textOf attrs st

/-- The document media types pre-registered as unordered in
parseManifestItem. -/
def documentTypes : List String :=
  ["text/x-oeb1-document", "application/x-dtbook+xml", "application/xhtml+xml"]

/-- EPubContainer::parseManifestItem. -/
def parseManifestItem (node : XNode) (currentFolder : String) (st : St) : Bool × St :=
  let id := node.attr "id"
  let path := node.attr "href"
  let mediaType := node.attr "media-type"
  if id == "" || path == "" then
    (false, warnD "Invalid item" st)
  else
    let path := cleanPath (currentFolder ++ path)
    let item : EPubItem := ⟨mediaType, path⟩
    let st := { st with items := insertA id item st.items }
    let st :=
      if documentTypes.contains mediaType then
        { st with unorderedItems := insertS id st.unorderedItems }
      else st
    (true, st)

/-- EPubContainer::parseSpineItem. The linear attribute is read by the
source but acted on by no branch. -/
def parseSpineItem (node : XNode) (st : St) : Bool × St :=
  let referenceName := node.attr "idref"
  if referenceName == "" then
    (false, warnD "Invalid spine item" st)
  else if !((keysA st.items).contains referenceName) then
    (false, warnD ("Unable to find " ++ referenceName ++ " in items") st)
  else
    (true, { st with
      unorderedItems := removeS referenceName st.unorderedItems,
      orderedItems := st.orderedItems ++ [referenceName] })

/-- EPubPageReference::typeFromString. -/
def typeFromString (name : String) : StandardType :=
  if name == "cover" then .CoverPage
  else if name == "title-page" then .TitlePage
  else if name == "toc" then .TableOfContents
  else if name == "index" then .Index
  else if name == "glossary" then .Glossary
  else if name == "acknowledgements" then .Acknowledgements
  else if name == "bibliography" then .Bibliography
  else if name == "colophon" then .Colophon
  else if name == "copyright-page" then .CopyrightPage
  else if name == "dedication" then .Dedication
  else if name == "epigraph" then .Epigraph
  else if name == "foreword" then .Foreword
  else if name == "loi" then .ListOfIllustrations
  else if name == "lot" then .ListOfTables
  else if name == "notes" then .Notes
  else if name == "preface" then .Preface
  else if name == "text" then .Text
  else .Other

/-- EPubContainer::parseGuideItem. -/
def parseGuideItem (node : XNode) (st : St) : Bool × St :=
  let target := node.attr "href"
  let title := node.attr "title"
  let refType := node.attr "type"
  if target == "" || title == "" || refType == "" then
    (false, warnD ("Invalid guide item " ++ target ++ " " ++ title ++ " " ++ refType) st)
  else
    let reference : EPubPageReference := ⟨target, title⟩
    let st :=
      if typeFromString refType = StandardType.Other then
        { st with otherReferences := insertA refType reference st.otherReferences }
      else
        { st with standardReferences :=
            insertA (typeFromString refType) reference st.standardReferences }
    (true, st)

/-! The four passes of parseContentFile. -/

/-- The metadata pass: every child node of every metadata element of the
document, in document order, through parseMetadataItem. -/
def metadataPass (doc : Option XNode) (st : St) : St :=
  (flatMapL XNode.childrenOf (docByTag "metadata" doc)).foldl
    (fun st n => (parseMetadataItem n st).2) st

/-- The manifest pass: every item descendant of every manifest element,
through parseManifestItem with the content-file folder. -/
def manifestPass (doc : Option XNode) (folder : String) (st : St) : St :=
  (flatMapL (descByTag "item") (docByTag "manifest" doc)).foldl
    (fun st n => (parseManifestItem n folder st).2) st

/-- The toc attribute handling at the head of the spine loop: a non-empty
toc attribute naming a known item registers a TableOfContents standard
reference at that id. -/
def spineTocStep (spineElem : XNode) (st : St) : St :=
  let tocId := spineElem.attr "toc"
  if tocId == "" then st
  else if (keysA st.items).contains tocId then
    { st with standardReferences :=
        (insertA StandardType.TableOfContents ⟨tocId, "Table of Contents"⟩
          st.standardReferences) }
  else st

/-- Processing of one spine element: the toc attribute, then every itemref
descendant through parseSpineItem. -/
def spineElemPass (spineElem : XNode) (st : St) : St :=
  let st := spineTocStep spineElem st
  (descByTag "itemref" spineElem).foldl (fun st n => (parseSpineItem n st).2) st

/-- The spine pass over every spine element of the document. -/
def spinePass (doc : Option XNode) (st : St) : St :=
  (docByTag "spine" doc).foldl (fun st e => spineElemPass e st) st

/-- The guide pass: every reference descendant of every guide element,
through parseGuideItem. -/
def guidePass (doc : Option XNode) (st : St) : St :=
  (flatMapL (descByTag "reference") (docByTag "guide" doc)).foldl
    (fun st n => (parseGuideItem n st).2) st

/-- EPubContainer::parseContentFile: fails only when the entry at the
given path cannot be opened; otherwise runs the four passes on whatever
setContent produced (a failed parse acts as an empty document) and
returns true. -/
def parseContentFile (arch : Archive) (filepath : String) (st : St) : Bool × St :=
  match findEntry arch filepath with
  | none => (false, errD "Malformed metadata, unable to get content metadata path" st)
  | some entry =>
    let doc := entry.xml
    let st := metadataPass doc st
    let folder := contentFileFolder filepath
    let st := manifestPass doc folder st
    let st := spinePass doc st
    let st := guidePass doc st
    (true, st)

/-- The rootfile candidate loop of parseContainer: an empty full-path is
skipped with a warning, otherwise parseContentFile is attempted and the
first success returns; falling off the end emits the stage-fatal error. -/
def tryRootfiles (arch : Archive) : List XNode → St → Bool × St
  | [], st => (false, errD "Unable to find and use any content files" st)
  | e :: rest, st =>
    let rootfilePath := e.attr "full-path"
    if rootfilePath == "" then
      tryRootfiles arch rest (warnD "Invalid root file entry" st)
    else
      match parseContentFile arch rootfilePath st with
      | (true, st') => (true, st')
      | (false, st') => tryRootfiles arch rest st'

/-- EPubContainer::parseContainer. -/
def parseContainer (arch : Archive) (files : List String) (st : St) : Bool × St :=
  if files.contains "META-INF/container.xml" then
    match findEntry arch "META-INF/container.xml" with
    | none => (false, errD "Unable to open container file" st)
    | some entry => tryRootfiles arch (docByTag "rootfile" entry.xml) st
  else
    (false, errD "Unable to find container information" st)

/-- EPubContainer::parseMimetype: a missing mimetype entry is fatal; a
present entry with unexpected content emits the errorHappened signal but
the function still returns true. -/
def parseMimetype (arch : Archive) (files : List String) (st : St) : Bool × St :=
  if files.contains "mimetype" then
    match findEntry arch "mimetype" with
    | none => (false, errD "Unable to open mimetype file" st)
    | some entry =>
      if entry.raw != "application/epub+zip" then
        (true, errD ("Unexpected mimetype " ++ entry.raw) st)
      else (true, st)
  else
    (false, errD "Unable to find mimetype in file" st)

/-! The table-of-contents parse. -/

/-- Whitespace recognised by QString::toInt. -/
def isWs (c : Char) : Bool :=
  c == ' ' || c == '\t' || c == '\n' || c == '\r'

/-- Strip surrounding whitespace from a character list. -/
def trimWs (l : List Char) : List Char :=
  ((l.dropWhile isWs).reverse.dropWhile isWs).reverse

/-- Value of a non-empty all-digit character list. -/
def digitsVal (l : List Char) : Option Nat :=
  if l.isEmpty then none
  else if l.all Char.isDigit then
    some (l.foldl (fun acc c => acc * 10 + (c.toNat - 48)) 0)
  else none

/-- Sign carried by an optional leading + or -. -/
def signOf (t : List Char) : Int :=
  match t with
  | '-' :: _ => -1
  | _ => 1

/-- The characters after an optional leading sign. -/
def digitsPart (t : List Char) : List Char :=
  match t with
  | '+' :: rest => rest
  | '-' :: rest => rest
  | _ => t

/-- QString::toInt: optional surrounding whitespace, an optional sign, a
non-empty digit run, and a value inside the 32-bit int range; every other
string converts to 0 (the ok flag the source ignores). -/
def qToInt (s : String) : Int :=
  let t := trimWs s.toList
  match digitsVal (digitsPart t) with
  | none => 0
  | some n =>
    let v : Int := signOf t * n
    if v < -2147483648 ∨ v > 2147483647 then 0 else v

/-- Head-metadata loop of parseToc, translated verbatim: the loop variable
starts at head.firstChildElement("meta") and is re-assigned on every
iteration to head.nextSiblingElement("navPoint") — the first navPoint
element among the siblings following head, a value constant across
iterations. The fuel bounds the iteration count; none is returned when
the loop has not finished within the fuel (with a navPoint sibling
present the C++ loop never terminates). -/
def tocHeadLoop :
    Nat → Option XNode → Option XNode → List (String × String) →
    Option (List (String × String))
  | 0, _, _, _ => none
  | _ + 1, none, _, m => some m
  | fuel + 1, some e, navSib, m =>
    tocHeadLoop fuel navSib navSib (insertA (e.attr "name") (e.attr "content") m)

/-- Numeric navmap key of a navPoint: its playOrder attribute through
QString::toInt. -/
def navKey (np : XNode) : Int :=
  qToInt (np.attr "playOrder")

/-- The EPubNavPoint built from one navPoint element. -/
def navPointOf (np : XNode) : EPubNavPoint :=
  ⟨np.attr "class", np.attr "id",
   ((firstChildElem "navLabel" np).map XNode.textOf).getD "",
   ((firstChildElem "content" np).map (fun c => c.attr "src")).getD ""⟩

/-- One navPoint of the navMap: keyed in the navmap by its playOrder
attribute converted with QString::toInt. -/
def navPointStep (nm : List (Int × EPubNavPoint)) (np : XNode) : List (Int × EPubNavPoint) :=
  insertSortedI (navKey np) (navPointOf np) nm

/-- The navPoint elements visited by the navMap sibling loop. -/
def navPointsOf (root : XNode) : List XNode :=
  match firstChildElem "navMap" root with
  | none => []
  | some nm => childElemsTag "navPoint" nm

/-- The initial value of the head-metadata loop variable:
head.firstChildElement("meta"), null when there is no head. -/
def headFirstMeta (root : XNode) : Option XNode :=
  (firstChildElem "head" root).bind (firstChildElem "meta")

/-- The value the head-metadata loop re-assigns on every iteration:
head.nextSiblingElement("navPoint"), the first navPoint element among the
siblings following head (null when head itself is null). -/
def headNavSib (root : XNode) : Option XNode :=
  match firstChildElem "head" root with
  | none => none
  | some _ => (afterFirstElemTag "head" root.childrenOf).find? (isElemTag "navPoint")

/-- EPubContainer::parseToc. A missing toc.ncx entry is tolerated; a
well-formed document fills the root attributes, runs the head-metadata
loop, takes the docTitle text and folds the navMap's navPoint siblings
into the playOrder-keyed navmap. none propagates the non-termination of
the head loop. -/
def parseToc (fuel : Nat) (arch : Archive) (files : List String) (st : St) :
    Option (Bool × St) :=
  if files.contains "toc.ncx" then
    match findEntry arch "toc.ncx" with
    | none => some (false, errD "Unable to open container file" st)
    | some entry =>
      match entry.xml with
      | none => some (true, st)
      | some root =>
        let toc1 : EPubToc := { st.toc with
          version := root.attr "version",
          xmlns := root.attr "xmlns",
          xml_lang := root.attr "xml:lang" }
        match tocHeadLoop fuel (headFirstMeta root) (headNavSib root) toc1.metadata with
        | none => none
        | some m =>
          let title := ((firstChildElem "docTitle" root).map XNode.textOf).getD ""
          let navmap := (navPointsOf root).foldl navPointStep toc1.navmap
          some (true,
            { st with toc := { toc1 with metadata := m, title := title, navmap := navmap } })
  else
    some (true, st)

/-- EPubContainer::openFile: open the archive, list its entries, then the
three stage calls in order, each aborting the pipeline on false. The
stages trace records which stage functions were entered; none models a
run of the source that never returns. -/
def openFile (fuel : Nat) (arch : Archive) : Option (Bool × St) :=
  let files := fileNames arch
  if files.isEmpty then some (false, errD "Failed to read" st0)
  else
    let st := { st0 with stages := st0.stages ++ [Stage.mimetype] }
    match parseMimetype arch files st with
    | (false, st) => some (false, st)
    | (true, st) =>
      let st := { st with stages := st.stages ++ [Stage.container] }
      match parseContainer arch files st with
      | (false, st) => some (false, st)
      | (true, st) =>
        let st := { st with stages := st.stages ++ [Stage.toc] }
        parseToc fuel arch files st

/-! Claim-side definitions: the vocabulary the claims are stated in. -/

/-- Concatenation joined by the literal "; ", the claim's description of
how repeated creator texts merge. -/
def joinSemicolon : List String → String
  | [] => ""
  | [t] => t
  | t :: ts => t ++ "; " ++ joinSemicolon ts

/-- The merge the code performs, one creator text at a time. -/
def creatorMergeAll (c : String) : List String → String
  | [] => c
  | t :: ts => creatorMergeAll (if c = "" then t else c ++ "; " ++ t) ts

/-- A dc:creator metadata element with the given text. -/
def creatorElem (t : String) : XNode :=
  .elem "dc" "creator" [] [.text t]

/-- Key/value pairs the navMap loop derives from its navPoint elements,
in document order. -/
def navPairs (nps : List XNode) : List (Int × EPubNavPoint) :=
  nps.map (fun np => (navKey np, navPointOf np))

/-- The value of the last pair carrying the given key, none when the key
never occurs: the claim's later-overwrites-earlier reading of repeated
playOrder keys. -/
def lastValueFor (k : Int) : List (Int × EPubNavPoint) → Option EPubNavPoint
  | [] => none
  | p :: rest =>
    match lastValueFor k rest with
    | some v => some v
    | none => if p.1 == k then some p.2 else none

/-- The idref attributes of a list of itemref elements. -/
def spineRefsL (l : List XNode) : List String :=
  l.map (fun n => n.attr "idref")

/-- The idref attributes of the itemref elements the spine pass visits,
in document order. -/
def spineRefsOf (doc : Option XNode) : List String :=
  spineRefsL (flatMapL (descByTag "itemref") (docByTag "spine" doc))

/-- The manifest item elements the manifest pass visits. -/
def manifestElemsOf (doc : Option XNode) : List XNode :=
  flatMapL (descByTag "item") (docByTag "manifest" doc)

/-- The ids registered from a list of manifest item elements: items with
non-empty id and href. -/
def validIdsL (l : List XNode) : List String :=
  (l.filter (fun n => !(n.attr "id" == "") && !(n.attr "href" == ""))).map
    (fun n => n.attr "id")

/-- The ids the manifest pass registers: items with non-empty id and
href. -/
def validIdsOf (doc : Option XNode) : List String :=
  validIdsL (manifestElemsOf doc)

/-- The ids pre-registered as unordered from a list of manifest item
elements: registered items whose media type is a document type. -/
def docIdsL (l : List XNode) : List String :=
  (l.filter (fun n => !(n.attr "id" == "") && !(n.attr "href" == "")
    && documentTypes.contains (n.attr "media-type"))).map (fun n => n.attr "id")

/-- The ids the manifest pass pre-registers as unordered: registered items
whose media type is one of the document types. -/
def docIdsOf (doc : Option XNode) : List String :=
  docIdsL (manifestElemsOf doc)

/-- The reading order the claims describe: the spine's idref sequence in
document order with the empty and the unresolvable idrefs dropped. -/
def orderedSpecOf (doc : Option XNode) : List String :=
  (spineRefsOf doc).filter (fun r => !(r == "") && (validIdsOf doc).contains r)

/-- The manifest/spine partition fields of the state: the item registry,
the ordered sequence and the unordered set. -/
def tripleOf (st : St) :
    List (String × EPubItem) × List String × List String :=
  (st.items, st.orderedItems, st.unorderedItems)

/-- A rootfile candidate the loop accepts: non-empty full-path whose
archive entry opens. -/
def validCand (arch : Archive) (e : XNode) : Bool :=
  !(e.attr "full-path" == "") && (findEntry arch (e.attr "full-path")).isSome

/-- The package document openFile ends up using: the entry named by the
first rootfile candidate with a non-empty full-path whose entry exists. -/
def usedRootfile (arch : Archive) : Option ZipEntry :=
  match findEntry arch "META-INF/container.xml" with
  | none => none
  | some c =>
    ((docByTag "rootfile" c.xml).find? (validCand arch)).bind
      (fun e => findEntry arch (e.attr "full-path"))

/-- The head-metadata pairs the spec says parseToc stores: the (name,
content) attribute pair of every meta element of the head block, in
document order. -/
def specHeadMetaPairs (root : XNode) : List (String × String) :=
  match firstChildElem "head" root with
  | none => []
  | some h => (childElemsTag "meta" h).map (fun m => (m.attr "name", m.attr "content"))

/-! Concrete fixtures used by witnesses and counterexamples. -/

/-- A well-formed mimetype entry. -/
def eMimetype : ZipEntry :=
  ⟨"application/epub+zip", none⟩

/-- A container.xml entry whose rootfile elements carry the given
full-path attributes. -/
def containerXml (paths : List String) : ZipEntry :=
  ⟨"", some (.elem "" "container" []
    [.elem "" "rootfiles" []
      (paths.map (fun p => .elem "" "rootfile" [("full-path", p)] []))])⟩

/-- A package document with two manifest items (an xhtml chapter and a png
image), a spine that references the chapter twice plus one unresolvable
idref, two creators, and two guide references. -/
def opfDoc : XNode :=
  .elem "" "package" []
    [ .elem "" "metadata" []
        [ .elem "dc" "title" [] [.text "My Book"]
        , .elem "dc" "creator" [("role", "aut")] [.text "A"]
        , .elem "dc" "creator" [] [.text "B"]
        ]
    , .elem "" "manifest" []
        [ .elem "" "item"
            [("id", "c1"), ("href", "chap1.xhtml"),
             ("media-type", "application/xhtml+xml")] []
        , .elem "" "item"
            [("id", "img1"), ("href", "img.png"), ("media-type", "image/png")] []
        ]
    , .elem "" "spine" [("toc", "c1")]
        [ .elem "" "itemref" [("idref", "c1")] []
        , .elem "" "itemref" [("idref", "c1")] []
        , .elem "" "itemref" [("idref", "missing")] []
        ]
    , .elem "" "guide" []
        [ .elem "" "reference"
            [("href", "cov.xhtml"), ("title", "Cover"), ("type", "cover")] []
        , .elem "" "reference"
            [("href", "x.xhtml"), ("title", "X"), ("type", "weird")] []
        ]
    ]

/-- An NCX document whose head holds two meta pairs and whose navMap holds
navPoints with playOrder 2, 1, 2 (a numeric repeat) and one non-numeric
playOrder. -/
def tocRootC : XNode :=
  .elem "" "ncx" [("version", "2005-1")]
    [ .elem "" "head" []
        [ .elem "" "meta" [("name", "a"), ("content", "1")] []
        , .elem "" "meta" [("name", "b"), ("content", "2")] []
        ]
    , .elem "" "docTitle" [] [.elem "" "text" [] [.text "My Book"]]
    , .elem "" "navMap" []
        [ .elem "" "navPoint" [("id", "n2"), ("playOrder", "2")]
            [.elem "" "navLabel" [] [.text "Two"],
             .elem "" "content" [("src", "c2.xhtml")] []]
        , .elem "" "navPoint" [("id", "n1"), ("playOrder", "1")]
            [.elem "" "navLabel" [] [.text "One"],
             .elem "" "content" [("src", "c1.xhtml")] []]
        , .elem "" "navPoint" [("id", "n2b"), ("playOrder", "2")]
            [.elem "" "navLabel" [] [.text "TwoAgain"],
             .elem "" "content" [("src", "c2b.xhtml")] []]
        , .elem "" "navPoint" [("id", "nx"), ("playOrder", "xyz")]
            [.elem "" "navLabel" [] [.text "X"],
             .elem "" "content" [("src", "x.xhtml")] []]
        ]
    ]

/-- A full, valid archive: mimetype, container, package document and
NCX. -/
def archW : Archive :=
  [ ("mimetype", eMimetype)
  , ("META-INF/container.xml", containerXml ["OEBPS/content.opf"])
  , ("OEBPS/content.opf", ⟨"", some opfDoc⟩)
  , ("toc.ncx", ⟨"", some tocRootC⟩)
  ]

/-- The state openFile produces on archW. -/
def stW : St :=
  match openFile 10 archW with
  | some r => r.2
  | none => st0

/-- An archive holding only the NCX fixture, for exercising parseToc. -/
def archT : Archive :=
  [("toc.ncx", ⟨"", some tocRootC⟩)]

/-- An archive whose mimetype entry carries the wrong content. -/
def archM : Archive :=
  [("mimetype", ⟨"text/plain", none⟩)]

/-- A non-empty archive with no mimetype entry at all. -/
def archN : Archive :=
  [("other", ⟨"x", none⟩)]

/-- The state parseToc produces on archT. -/
def stT : St :=
  match parseToc 10 archT ["toc.ncx"] st0 with
  | some r => r.2
  | none => st0

/-! Basic lemmas about the container primitives. -/

theorem lookupA_insertA_self {α β : Type} [BEq α] [LawfulBEq α] (k : α) (v : β)
    (m : List (α × β)) : lookupA k (insertA k v m) = some v := by
  induction m with
  | nil => simp [insertA, lookupA]
  | cons p t ih =>
    obtain ⟨k', v'⟩ := p
    by_cases h : k = k'
    · simp [insertA, lookupA, h]
    · simp [insertA, lookupA, h, Ne.symm h, ih]

theorem lookupA_insertA_ne {α β : Type} [BEq α] [LawfulBEq α] (k k' : α) (v : β)
    (m : List (α × β)) (h : k' ≠ k) : lookupA k' (insertA k v m) = lookupA k' m := by
  induction m with
  | nil => simp [insertA, lookupA, Ne.symm h]
  | cons p t ih =>
    obtain ⟨a, b⟩ := p
    by_cases hk : k = a
    · subst hk
      simp [insertA, lookupA, Ne.symm h]
    · simp [insertA, lookupA, hk, ih]

theorem mem_keysA_insertA {α β : Type} [BEq α] [LawfulBEq α] (a k : α) (v : β)
    (m : List (α × β)) : a ∈ keysA (insertA k v m) ↔ a = k ∨ a ∈ keysA m := by
  induction m with
  | nil => simp [insertA, keysA]
  | cons p t ih =>
    obtain ⟨k', v'⟩ := p
    by_cases h : k = k'
    · subst h
      simp [insertA, keysA]
      try tauto
    · simp [insertA, keysA, h] at ih ⊢
      tauto

theorem mem_insertS (a x : String) (s : List String) :
    a ∈ insertS x s ↔ a = x ∨ a ∈ s := by
  by_cases h : s.contains x
  · have : x ∈ s := by simpa using h
    simp only [insertS, h, if_pos]
    constructor
    · exact fun hm => Or.inr hm
    · rintro (rfl | hm)
      · exact this
      · exact hm
  · simp only [insertS, h, if_neg, Bool.false_eq_true, not_false_iff]
    simp [or_comm]

theorem mem_removeS (a x : String) (s : List String) :
    a ∈ removeS x s ↔ a ∈ s ∧ a ≠ x := by
  simp [removeS]

/-- Claim C10. parseContentFile succeeds exactly when the archive entry at
the candidate path can be opened, whatever its bytes parse to: a candidate
that is not well-formed XML or has none of the package elements still
counts as successfully parsed, so the root-file candidate loop accepts the
first candidate whose entry merely opens. -/
theorem claim_c10 (arch : Archive) (filepath : String) (st : St) :
    (parseContentFile arch filepath st).1 = true ↔ (findEntry arch filepath).isSome := by
  unfold parseContentFile
  cases findEntry arch filepath <;> simp

/-- Claim C6. parseGuideItem skips with a warning any reference missing
href, title or type; otherwise the type string is classified by
typeFromString: a recognized type (such as cover, which maps to CoverPage)
stores the reference in the standard map under its enum key, replacing any
earlier reference of that type, and leaves the other bucket unchanged,
while an unrecognized type stores the reference only in the other bucket
under the literal type string. -/
theorem claim_c6 (st : St) (n : XNode) :
    (typeFromString "cover" = StandardType.CoverPage) ∧
    ((n.attr "href" = "" ∨ n.attr "title" = "" ∨ n.attr "type" = "") →
      ∃ msg, parseGuideItem n st = (false, warnD msg st)) ∧
    (n.attr "href" ≠ "" → n.attr "title" ≠ "" → n.attr "type" ≠ "" →
      (typeFromString (n.attr "type") ≠ StandardType.Other →
        parseGuideItem n st = (true, { st with standardReferences :=
          (insertA (typeFromString (n.attr "type")) ⟨n.attr "href", n.attr "title"⟩
            st.standardReferences) }) ∧
        lookupA (typeFromString (n.attr "type"))
            (parseGuideItem n st).2.standardReferences
          = some ⟨n.attr "href", n.attr "title"⟩ ∧
        (parseGuideItem n st).2.otherReferences = st.otherReferences) ∧
      (typeFromString (n.attr "type") = StandardType.Other →
        parseGuideItem n st = (true, { st with otherReferences :=
          (insertA (n.attr "type") ⟨n.attr "href", n.attr "title"⟩ st.otherReferences) }) ∧
        lookupA (n.attr "type") (parseGuideItem n st).2.otherReferences
          = some ⟨n.attr "href", n.attr "title"⟩ ∧
        (parseGuideItem n st).2.standardReferences = st.standardReferences)) := by
  refine ⟨by decide, ?_, ?_⟩
  · intro h
    refine ⟨"Invalid guide item " ++ n.attr "href" ++ " " ++ n.attr "title" ++ " "
      ++ n.attr "type", ?_⟩
    unfold parseGuideItem
    rcases h with h | h | h <;> simp [h]
  · intro h1 h2 h3
    constructor
    · intro hstd
      unfold parseGuideItem
      simp [h1, h2, h3, hstd, lookupA_insertA_self]
    · intro hoth
      unfold parseGuideItem
      simp [h1, h2, h3, hoth, lookupA_insertA_self]

/-- Witness for claim C6 at a concrete cover reference and a concrete
unrecognized reference type. -/
theorem claim_c6_witness :
    (let n : XNode := .elem "" "reference"
      [("href", "cov.xhtml"), ("title", "Cover"), ("type", "cover")] []
     lookupA (typeFromString (n.attr "type"))
        (parseGuideItem n st0).2.standardReferences
       = some ⟨n.attr "href", n.attr "title"⟩) := by
  have h := claim_c6 st0 (.elem "" "reference"
    [("href", "cov.xhtml"), ("title", "Cover"), ("type", "cover")] [])
  exact ((h.2.2 (by decide) (by decide) (by decide)).1 (by decide)).2.1

/-! Claim C5: metadata classification and the creator merge rule. -/

theorem str_length_eq_zero (s : String) : s.length = 0 ↔ s = "" := by
  constructor
  · intro h
    obtain ⟨l⟩ := s
    simp [String.length] at h
    simp [h]
  · intro h
    simp [h]

theorem append_ne_empty_left (c x : String) (h : c ≠ "") : c ++ x ≠ "" := by
  intro hcx
  apply h
  have hlen := congrArg String.length hcx
  rw [String.length_append] at hlen
  have h0 : String.length "" = 0 := rfl
  rw [h0] at hlen
  exact (str_length_eq_zero c).mp (by omega)

theorem qValue_insertA_self (k v : String) (m : List (String × String)) :
    qValue (insertA k v m) k = v := by
  simp [qValue, lookupA_insertA_self]

theorem creator_fold (ts : List String) (st : St) (hts : ∀ t ∈ ts, t ≠ "") :
    qValue (((ts.map creatorElem).foldl (fun s e => (parseMetadataItem e s).2) st).metadata)
        "creator"
      = creatorMergeAll (qValue st.metadata "creator") ts := by
  induction ts generalizing st with
  | nil => simp [creatorMergeAll]
  | cons t ts ih =>
    have ht : t ≠ "" := hts t (by simp)
    have hts' : ∀ u ∈ ts, u ≠ "" := fun u hu => hts u (by simp [hu])
    simp only [List.map_cons, List.foldl_cons]
    rw [ih _ hts']
    have hstep :
        qValue ((parseMetadataItem (creatorElem t) st).2).metadata "creator"
          = if qValue st.metadata "creator" = "" then t
            else qValue st.metadata "creator" ++ "; " ++ t := by
      simp only [parseMetadataItem, creatorElem, XNode.tagOf, XNode.nsOf, XNode.attrsOf,
        XNode.textOf, textOfList, String.append_empty]
      by_cases hc : qValue st.metadata "creator" = ""
      · simp [hc, storeMeta, ht, qValue_insertA_self]
      · have hne : qValue st.metadata "creator" ++ "; " ++ t ≠ "" :=
          append_ne_empty_left _ _ (append_ne_empty_left _ _ hc)
        simp [hc, storeMeta, hne, qValue_insertA_self]
    rw [hstep]
    by_cases hc : qValue st.metadata "creator" = ""
    · simp [hc, creatorMergeAll]
    · simp [hc, creatorMergeAll]

theorem joinSemicolon_merge (ts : List String) (c t : String) :
    joinSemicolon ((c ++ "; " ++ t) :: ts) = c ++ "; " ++ joinSemicolon (t :: ts) := by
  cases ts with
  | nil => simp [joinSemicolon]
  | cons u us => simp [joinSemicolon, String.append_assoc]

theorem creatorMergeAll_ne (ts : List String) (c : String) (hc : c ≠ "") :
    creatorMergeAll c ts = joinSemicolon (c :: ts) := by
  induction ts generalizing c with
  | nil => simp [creatorMergeAll, joinSemicolon]
  | cons t ts ih =>
    have hne : c ++ "; " ++ t ≠ "" := append_ne_empty_left _ _ (append_ne_empty_left _ _ hc)
    calc creatorMergeAll c (t :: ts)
        = creatorMergeAll (c ++ "; " ++ t) ts := by simp [creatorMergeAll, hc]
      _ = joinSemicolon ((c ++ "; " ++ t) :: ts) := ih _ hne
      _ = c ++ "; " ++ joinSemicolon (t :: ts) := joinSemicolon_merge ts c t
      _ = joinSemicolon (c :: t :: ts) := by simp [joinSemicolon]

theorem creatorMergeAll_eq_join (ts : List String) (hts : ∀ t ∈ ts, t ≠ "") :
    creatorMergeAll "" ts = joinSemicolon ts := by
  cases ts with
  | nil => simp [creatorMergeAll, joinSemicolon]
  | cons t ts =>
    have ht : t ≠ "" := hts t (by simp)
    calc creatorMergeAll "" (t :: ts) = creatorMergeAll t ts := by simp [creatorMergeAll]
      _ = joinSemicolon (t :: ts) := creatorMergeAll_ne ts t ht

/-- Claim C5. Classification performed by parseMetadataItem: an element
named meta stores the (name attribute, content attribute) pair; an
element outside the dc namespace and not named meta is rejected with a
warning and stores nothing; a dc date element stores (event attribute,
element text); any other dc element apart from creator stores (tag name,
element text); a pair whose resolved name or value is empty is discarded;
and a sequence of dc creator elements with non-empty texts merges, in
encounter order, to the texts joined by "; " (so texts "A" then "B" yield
"A; B" — the witness instantiates exactly this). -/
theorem claim_c5 (st : St) (n : XNode) :
    (n.tagOf = "meta" →
      parseMetadataItem n st = storeMeta (qAttr n.attrsOf "name") (qAttr n.attrsOf "content")
        n.attrsOf st) ∧
    (n.tagOf ≠ "meta" → n.nsOf ≠ "dc" →
      parseMetadataItem n st = (false, warnD ("Unsupported metadata tag " ++ n.tagOf) st)) ∧
    (n.tagOf = "date" → n.nsOf = "dc" →
      parseMetadataItem n st = storeMeta (qAttr n.attrsOf "event") n.textOf n.attrsOf st) ∧
    (n.nsOf = "dc" → n.tagOf ≠ "meta" → n.tagOf ≠ "date" → n.tagOf ≠ "creator" →
      parseMetadataItem n st = storeMeta n.tagOf n.textOf n.attrsOf st) ∧
    (∀ (k v : String) (attrs : List (String × String)), k = "" ∨ v = "" →
      storeMeta k v attrs st = (false, st)) ∧
    (∀ ts : List String, (∀ t ∈ ts, t ≠ "") → qValue st.metadata "creator" = "" →
      qValue (((ts.map creatorElem).foldl
            (fun s e => (parseMetadataItem e s).2) st).metadata) "creator"
        = joinSemicolon ts) := by
  refine ⟨?_, ?_, ?_, ?_, ?_, ?_⟩
  · intro h
    simp [parseMetadataItem, h]
  · intro h1 h2
    simp [parseMetadataItem, h1, h2]
  · intro h1 h2
    have hm : n.tagOf ≠ "meta" := by simp [h1]
    simp [parseMetadataItem, h1, h2, hm]
  · intro h1 h2 h3 h4
    simp [parseMetadataItem, h1, h2, h3, h4]
  · intro k v attrs h
    rcases h with h | h <;> simp [storeMeta, h]
  · intro ts hts hcr
    rw [creator_fold ts st hts, hcr, creatorMergeAll_eq_join ts hts]

/-- Witness for claim C5: two dc:creator elements with texts "A" then "B"
merge to the metadata value "A; B". -/
theorem claim_c5_witness :
    qValue ((([ "A", "B" ].map creatorElem).foldl
        (fun s e => (parseMetadataItem e s).2) st0).metadata) "creator" = "A; B" := by
  have h := (claim_c5 st0 (creatorElem "A")).2.2.2.2.2 ["A", "B"] (by decide) (by decide)
  simpa [joinSemicolon] using h

/-! Claim C8: the navmap is keyed by the numeric playOrder. -/

theorem mem_keysA_insertSortedI {β : Type} (a k : Int) (v : β) (m : List (Int × β)) :
    a ∈ keysA (insertSortedI k v m) ↔ a = k ∨ a ∈ keysA m := by
  induction m with
  | nil => simp [insertSortedI, keysA]
  | cons p t ih =>
    obtain ⟨k', v'⟩ := p
    by_cases h1 : k < k'
    · simp [insertSortedI, h1, keysA]
      try tauto
    · by_cases h2 : k = k'
      · subst h2
        simp [insertSortedI, h1, keysA]
        try tauto
      · simp [insertSortedI, h1, h2, keysA] at ih ⊢
        tauto

theorem pairwise_insertSortedI {β : Type} (k : Int) (v : β) (m : List (Int × β))
    (h : m.Pairwise (fun a b => a.1 < b.1)) :
    (insertSortedI k v m).Pairwise (fun a b => a.1 < b.1) := by
  induction m with
  | nil => simp [insertSortedI]
  | cons p t ih =>
    obtain ⟨k', v'⟩ := p
    rw [List.pairwise_cons] at h
    obtain ⟨hk', ht⟩ := h
    by_cases h1 : k < k'
    · rw [insertSortedI, if_pos h1]
      refine List.Pairwise.cons ?_ (List.Pairwise.cons hk' ht)
      intro b hb
      rcases List.mem_cons.mp hb with rfl | hb
      · exact h1
      · exact lt_trans h1 (hk' b hb)
    · by_cases h2 : k = k'
      · subst h2
        rw [insertSortedI, if_neg h1, if_pos rfl]
        exact List.Pairwise.cons hk' ht
      · rw [insertSortedI, if_neg h1, if_neg h2]
        refine List.Pairwise.cons ?_ (ih ht)
        intro b hb
        have hb' : b.1 ∈ keysA (insertSortedI k v t) := List.mem_map_of_mem Prod.fst hb
        rcases (mem_keysA_insertSortedI b.1 k v t).mp hb' with hbk | hbt
        · rw [hbk]
          omega
        · obtain ⟨c, hc, hcb⟩ := List.mem_map.mp hbt
          have := hk' c hc
          omega

theorem lookupA_insertSortedI_self {β : Type} (k : Int) (v : β) (m : List (Int × β)) :
    lookupA k (insertSortedI k v m) = some v := by
  induction m with
  | nil => simp [insertSortedI, lookupA]
  | cons p t ih =>
    obtain ⟨k', v'⟩ := p
    by_cases h1 : k < k'
    · simp [insertSortedI, h1, lookupA]
    · by_cases h2 : k = k'
      · subst h2
        simp [insertSortedI, h1, lookupA]
      · simp [insertSortedI, h1, h2, lookupA, Ne.symm h2, ih]

theorem lookupA_insertSortedI_ne {β : Type} (k k' : Int) (v : β) (m : List (Int × β))
    (h : k' ≠ k) : lookupA k' (insertSortedI k v m) = lookupA k' m := by
  induction m with
  | nil => simp [insertSortedI, lookupA, Ne.symm h]
  | cons p t ih =>
    obtain ⟨a, b⟩ := p
    by_cases h1 : k < a
    · simp [insertSortedI, h1, lookupA, Ne.symm h]
    · by_cases h2 : k = a
      · subst h2
        simp [insertSortedI, h1, lookupA, Ne.symm h]
      · simp [insertSortedI, h1, h2, lookupA, ih]

theorem foldl_navPointStep_lookup (nps : List XNode) (nm0 : List (Int × EPubNavPoint))
    (k : Int) :
    lookupA k (nps.foldl navPointStep nm0)
      = match lastValueFor k (navPairs nps) with
        | some v => some v
        | none => lookupA k nm0 := by
  induction nps generalizing nm0 with
  | nil => simp [navPairs, lastValueFor]
  | cons np rest ih =>
    simp only [List.foldl_cons, navPairs, List.map_cons, lastValueFor]
    rw [ih]
    cases hrest : lastValueFor k (navPairs rest) with
    | some v => simp [navPairs] at hrest ⊢; rw [hrest]
    | none =>
      simp [navPairs] at hrest ⊢
      rw [hrest]
      by_cases hk : navKey np = k
      · subst hk
        simp [navPointStep, lookupA_insertSortedI_self]
      · simp [navPointStep, hk, lookupA_insertSortedI_ne _ _ _ _ (Ne.symm hk)]

theorem foldl_navPointStep_pairwise (nps : List XNode) (nm0 : List (Int × EPubNavPoint))
    (h : nm0.Pairwise (fun a b => a.1 < b.1)) :
    (nps.foldl navPointStep nm0).Pairwise (fun a b => a.1 < b.1) := by
  induction nps generalizing nm0 with
  | nil => exact h
  | cons np rest ih =>
    exact ih _ (pairwise_insertSortedI _ _ _ h)

theorem lastValueFor_eq_none_iff (k : Int) (ps : List (Int × EPubNavPoint)) :
    lastValueFor k ps = none ↔ k ∉ keysA ps := by
  induction ps with
  | nil => simp [lastValueFor, keysA]
  | cons p rest ih =>
    simp only [lastValueFor, keysA, List.map_cons, List.mem_cons]
    cases hres : lastValueFor k rest with
    | some v =>
      have hmem : k ∈ keysA rest := by
        by_contra hc
        rw [← ih] at hc
        rw [hres] at hc
        exact Option.noConfusion hc
      simp [keysA] at hmem ⊢
      tauto
    | none =>
      have hnm : k ∉ keysA rest := ih.mp hres
      simp [keysA] at hnm ⊢
      by_cases hk : p.1 = k
      · simp [hk, eq_comm]
        try tauto
      · simp [hk, eq_comm]
        try tauto

/-- Claim C8. parseToc keys each navPoint by its playOrder attribute read
as an integer: the navmap produced by folding the navMap's navPoints is
ordered by the numeric key (not document order), its value at a key is the
value of the last navPoint in document order carrying that key (a repeated
playOrder overwrites the earlier entry), and a playOrder whose trimmed,
sign-stripped text is not a digit run converts to the default 0, under
which the navPoint is still stored. -/
theorem claim_c8 :
    (∀ (fuel : Nat) (arch : Archive) (files : List String) (st : St) (b : Bool) (st' : St)
       (e : ZipEntry) (root : XNode),
       findEntry arch "toc.ncx" = some e → e.xml = some root →
       files.contains "toc.ncx" = true →
       parseToc fuel arch files st = some (b, st') →
       st'.toc.navmap = (navPointsOf root).foldl navPointStep st.toc.navmap) ∧
    (∀ nps : List XNode,
       (nps.foldl navPointStep []).Pairwise (fun a b => a.1 < b.1)) ∧
    (∀ (nps : List XNode) (k : Int),
       lookupA k (nps.foldl navPointStep []) = lastValueFor k (navPairs nps)) ∧
    (∀ (nps : List XNode) (np : XNode), np ∈ nps →
       (lookupA (navKey np) (nps.foldl navPointStep [])).isSome) ∧
    (∀ s : String, digitsVal (digitsPart (trimWs s.toList)) = none → qToInt s = 0) := by
  refine ⟨?_, ?_, ?_, ?_, ?_⟩
  · intro fuel arch files st b st' e root he hx hf hp
    obtain ⟨raw, exml⟩ := e
    simp only at hx
    subst hx
    rw [parseToc, if_pos (by simpa using hf), he] at hp
    simp only at hp
    cases hloop : tocHeadLoop fuel (headFirstMeta root) (headNavSib root) st.toc.metadata with
    | none => rw [hloop] at hp; exact Option.noConfusion hp
    | some m =>
      rw [hloop] at hp
      simp only [Option.some.injEq, Prod.mk.injEq] at hp
      rw [← hp.2]
  · intro nps
    exact foldl_navPointStep_pairwise nps [] (by simp)
  · intro nps k
    rw [foldl_navPointStep_lookup]
    cases lastValueFor k (navPairs nps) <;> simp [lookupA]
  · intro nps np hmem
    rw [foldl_navPointStep_lookup]
    have hkey : navKey np ∈ keysA (navPairs nps) := by
      have : (navKey np, navPointOf np) ∈ navPairs nps :=
        List.mem_map_of_mem (fun q => (navKey q, navPointOf q)) hmem
      exact List.mem_map_of_mem Prod.fst this
    have hne : lastValueFor (navKey np) (navPairs nps) ≠ none := by
      intro hc
      exact (lastValueFor_eq_none_iff _ _).mp hc hkey
    cases hlv : lastValueFor (navKey np) (navPairs nps) with
    | some v => simp
    | none => exact absurd hlv hne
  · intro s h
    rw [qToInt]
    simp only [h]

/-- Witness for claim C8 at a concrete toc.ncx whose navMap repeats
playOrder 2 and carries one non-numeric playOrder. -/
theorem claim_c8_witness :
    (stT.toc.navmap = (navPointsOf tocRootC).foldl navPointStep st0.toc.navmap) ∧
    (lookupA 2 ((navPointsOf tocRootC).foldl navPointStep [])
      = lastValueFor 2 (navPairs (navPointsOf tocRootC))) ∧
    qToInt "xyz" = 0 := by
  refine ⟨?_, ?_, ?_⟩
  · exact claim_c8.1 10 archT ["toc.ncx"] st0 true stT ⟨"", some tocRootC⟩ tocRootC
      rfl rfl (by decide) rfl
  · exact claim_c8.2.2.1 (navPointsOf tocRootC) 2
  · exact claim_c8.2.2.2.2 "xyz" (by decide)

/-! Claim C9: href resolution against the package-document directory. -/

theorem lastIdxC_of_not_mem (c : Char) (l : List Char) (h : c ∉ l) :
    lastIdxC c l = -1 := by
  induction l with
  | nil => rfl
  | cons x xs ih =>
    have hx : x ≠ c := fun hc => h (by subst hc; exact List.mem_cons_self x xs)
    have hxs : c ∉ xs := fun hc => h (List.mem_cons_of_mem x hc)
    simp only [lastIdxC, ih hxs]
    norm_num
    exact hx

theorem lastIdxC_append_last (c : Char) (d f : List Char) (hf : c ∉ f) :
    lastIdxC c (d ++ c :: f) = (d.length : Int) := by
  induction d with
  | nil =>
    simp only [List.nil_append, lastIdxC, lastIdxC_of_not_mem c f hf]
    norm_num
  | cons x xs ih =>
    simp only [List.cons_append, lastIdxC, List.append_eq, ih]
    have hge : ((xs.length : Nat) : Int) ≥ 0 := by positivity
    rw [if_pos hge]
    simp only [List.length_cons]
    push_cast
    ring

theorem toList_ne_nil (d : String) (h : d ≠ "") : d.toList ≠ [] := by
  intro hc
  apply h
  have := congrArg List.asString hc
  rw [String.asString_toList] at this
  simpa using this

theorem contentFileFolder_concat (d f : String) (hd : d ≠ "") (hf : '/' ∉ f.toList) :
    contentFileFolder (d ++ "/" ++ f) = d ++ "/" := by
  have htl : (d ++ "/" ++ f).toList = d.toList ++ '/' :: f.toList := by
    simp [String.toList]
  have hidx : qLastIndexOf (d ++ "/" ++ f) '/' = (d.toList.length : Int) := by
    rw [qLastIndexOf, htl]
    exact lastIdxC_append_last '/' d.toList f.toList hf
  have hpos : (0 : Int) < d.toList.length := by
    have := toList_ne_nil d hd
    cases hl : d.toList with
    | nil => exact absurd hl this
    | cons a as => simp [hl]
  rw [contentFileFolder]
  simp only [hidx, hpos, if_pos]
  rw [strTake, htl]
  have hn : ((d.toList.length : Int) + 1).toNat = d.toList.length + 1 := by omega
  rw [hn]
  have hsplit : d.toList ++ '/' :: f.toList = (d.toList ++ ['/']) ++ f.toList := by
    simp
  rw [hsplit]
  have hlen : d.toList.length + 1 = (d.toList ++ ['/']).length := by simp
  rw [hlen, List.take_left]
  have : (d ++ "/").toList = d.toList ++ ['/'] := by simp [String.toList]
  rw [← this, String.asString_toList]

/-- Counterexample to claim C9 as stated: a package document at path
"/content.opf" (the d/f form with d the empty string) has its last slash
at index 0, so the source resolves hrefs against "" rather than against
the directory prefix "/": the stored path is "chap1.xhtml" while the
claim's formula cleanPath(d/ + h) gives "/chap1.xhtml". -/
theorem claim_c9_counterexample :
    (lookupA "c1"
        ((parseManifestItem
            (.elem "" "item"
              [("id", "c1"), ("href", "chap1.xhtml"),
               ("media-type", "application/xhtml+xml")] [])
            (contentFileFolder ("" ++ "/" ++ "content.opf")) st0).2.items)
      = some ⟨"application/xhtml+xml", "chap1.xhtml"⟩) ∧
    cleanPath ("" ++ "/" ++ "chap1.xhtml") = "/chap1.xhtml" ∧
    ("chap1.xhtml" : String) ≠ "/chap1.xhtml" := by
  refine ⟨by decide, by decide, by decide⟩

/-- Claim C9, amended: when the directory part d of the package-document
path d/f is non-empty (so the last slash sits at a positive index), a
manifest href h is stored as cleanPath(d/ + h); a path whose only slash is
leading, or that has no slash, resolves hrefs against the archive root
instead. -/
theorem claim_c9_amended (d f : String) (n : XNode) (st : St)
    (hd : d ≠ "") (hf : '/' ∉ f.toList)
    (hid : ¬ n.attr "id" = "") (href : ¬ n.attr "href" = "") :
    lookupA (n.attr "id")
        ((parseManifestItem n (contentFileFolder (d ++ "/" ++ f)) st).2.items)
      = some ⟨n.attr "media-type", cleanPath (d ++ "/" ++ n.attr "href")⟩ := by
  rw [contentFileFolder_concat d f hd hf]
  rw [parseManifestItem]
  by_cases hdoc : n.attr "media-type" ∈ documentTypes <;>
    simp [hid, href, hdoc, lookupA_insertA_self]

/-- Witness for the amended claim C9 at the spec's round-trip example: an
href "chap1.xhtml" in a package document at "OEBPS/content.opf" resolves
to "OEBPS/chap1.xhtml". -/
theorem claim_c9_witness :
    (lookupA "c1"
        ((parseManifestItem
            (.elem "" "item"
              [("id", "c1"), ("href", "chap1.xhtml"),
               ("media-type", "application/xhtml+xml")] [])
            (contentFileFolder ("OEBPS" ++ "/" ++ "content.opf")) st0).2.items)
      = some ⟨"application/xhtml+xml", cleanPath ("OEBPS" ++ "/" ++ "chap1.xhtml")⟩) ∧
    cleanPath ("OEBPS" ++ "/" ++ "chap1.xhtml") = "OEBPS/chap1.xhtml" := by
  constructor
  · exact claim_c9_amended "OEBPS" "content.opf"
      (.elem "" "item"
        [("id", "c1"), ("href", "chap1.xhtml"),
         ("media-type", "application/xhtml+xml")] [])
      st0 (by decide) (by decide) (by decide) (by decide)
  · decide

/-! Frame lemmas: which state fields each parsing function leaves
untouched. -/

theorem storeMeta_frame (k v : String) (attrs : List (String × String)) (st : St) :
    ((storeMeta k v attrs st).2.items = st.items) ∧
    ((storeMeta k v attrs st).2.orderedItems = st.orderedItems) ∧
    ((storeMeta k v attrs st).2.unorderedItems = st.unorderedItems) ∧
    ((storeMeta k v attrs st).2.stages = st.stages) := by
  by_cases h : (k == "" || v == "") = true
  · simp [storeMeta, h]
  · by_cases h2 : attrs.isEmpty <;> simp [storeMeta, h, h2]

theorem parseMetadataItem_frame (n : XNode) (st : St) :
    ((parseMetadataItem n st).2.items = st.items) ∧
    ((parseMetadataItem n st).2.orderedItems = st.orderedItems) ∧
    ((parseMetadataItem n st).2.unorderedItems = st.unorderedItems) ∧
    ((parseMetadataItem n st).2.stages = st.stages) := by
  by_cases h1 : n.tagOf = "meta"
  · simp [parseMetadataItem, h1, storeMeta_frame]
  · by_cases h2 : n.nsOf = "dc"
    · by_cases h3 : n.tagOf = "date"
      · simp [parseMetadataItem, h1, h2, h3, storeMeta_frame]
      · by_cases h4 : n.tagOf = "creator"
        · simp [parseMetadataItem, h1, h2, h3, h4, storeMeta_frame]
        · simp [parseMetadataItem, h1, h2, h3, h4, storeMeta_frame]
    · simp [parseMetadataItem, h1, h2, warnD, addDiag]

theorem metadataPass_frame (doc : Option XNode) (st : St) :
    ((metadataPass doc st).items = st.items) ∧
    ((metadataPass doc st).orderedItems = st.orderedItems) ∧
    ((metadataPass doc st).unorderedItems = st.unorderedItems) ∧
    ((metadataPass doc st).stages = st.stages) := by
  rw [metadataPass]
  generalize flatMapL XNode.childrenOf (docByTag "metadata" doc) = l
  induction l generalizing st with
  | nil => simp
  | cons n rest ih =>
    simp only [List.foldl_cons]
    have h := parseMetadataItem_frame n st
    have h2 := ih ((parseMetadataItem n st).2)
    exact ⟨h2.1.trans h.1, (h2.2.1).trans h.2.1, (h2.2.2.1).trans h.2.2.1,
      (h2.2.2.2).trans h.2.2.2⟩

theorem parseManifestItem_frame (n : XNode) (folder : String) (st : St) :
    ((parseManifestItem n folder st).2.orderedItems = st.orderedItems) ∧
    ((parseManifestItem n folder st).2.stages = st.stages) := by
  by_cases h : (n.attr "id" == "" || n.attr "href" == "") = true
  · simp [parseManifestItem, h, warnD, addDiag]
  · by_cases h2 : n.attr "media-type" ∈ documentTypes <;>
      simp [parseManifestItem, h, h2]

theorem manifestPass_frame (doc : Option XNode) (folder : String) (st : St) :
    ((manifestPass doc folder st).orderedItems = st.orderedItems) ∧
    ((manifestPass doc folder st).stages = st.stages) := by
  rw [manifestPass]
  generalize flatMapL (descByTag "item") (docByTag "manifest" doc) = l
  induction l generalizing st with
  | nil => simp
  | cons n rest ih =>
    simp only [List.foldl_cons]
    have h := parseManifestItem_frame n folder st
    have h2 := ih ((parseManifestItem n folder st).2)
    exact ⟨h2.1.trans h.1, h2.2.trans h.2⟩

theorem parseSpineItem_frame (n : XNode) (st : St) :
    ((parseSpineItem n st).2.items = st.items) ∧
    ((parseSpineItem n st).2.stages = st.stages) := by
  by_cases h1 : n.attr "idref" = ""
  · simp [parseSpineItem, h1, warnD, addDiag]
  · by_cases h2 : n.attr "idref" ∈ keysA st.items <;>
      simp [parseSpineItem, h1, h2, warnD, addDiag]

theorem spineTocStep_frame (e : XNode) (st : St) :
    ((spineTocStep e st).items = st.items) ∧
    ((spineTocStep e st).orderedItems = st.orderedItems) ∧
    ((spineTocStep e st).unorderedItems = st.unorderedItems) ∧
    ((spineTocStep e st).stages = st.stages) := by
  by_cases h1 : e.attr "toc" = ""
  · simp [spineTocStep, h1]
  · by_cases h2 : e.attr "toc" ∈ keysA st.items <;> simp [spineTocStep, h1, h2]

theorem spineFold_frame (l : List XNode) (st : St) :
    ((l.foldl (fun st n => (parseSpineItem n st).2) st).items = st.items) ∧
    ((l.foldl (fun st n => (parseSpineItem n st).2) st).stages = st.stages) := by
  induction l generalizing st with
  | nil => simp
  | cons n rest ih =>
    simp only [List.foldl_cons]
    have h := parseSpineItem_frame n st
    have h2 := ih ((parseSpineItem n st).2)
    exact ⟨h2.1.trans h.1, h2.2.trans h.2⟩

theorem spineElemPass_frame (e : XNode) (st : St) :
    ((spineElemPass e st).items = st.items) ∧
    ((spineElemPass e st).stages = st.stages) := by
  rw [spineElemPass]
  have h0 := spineTocStep_frame e st
  have h1 := spineFold_frame (descByTag "itemref" e) (spineTocStep e st)
  exact ⟨h1.1.trans h0.1, h1.2.trans h0.2.2.2⟩

theorem spinePass_frame (doc : Option XNode) (st : St) :
    ((spinePass doc st).items = st.items) ∧
    ((spinePass doc st).stages = st.stages) := by
  rw [spinePass]
  generalize docByTag "spine" doc = l
  induction l generalizing st with
  | nil => simp
  | cons e rest ih =>
    simp only [List.foldl_cons]
    have h := spineElemPass_frame e st
    have h2 := ih (spineElemPass e st)
    exact ⟨h2.1.trans h.1, h2.2.trans h.2⟩

theorem parseGuideItem_frame (n : XNode) (st : St) :
    ((parseGuideItem n st).2.items = st.items) ∧
    ((parseGuideItem n st).2.orderedItems = st.orderedItems) ∧
    ((parseGuideItem n st).2.unorderedItems = st.unorderedItems) ∧
    ((parseGuideItem n st).2.stages = st.stages) := by
  by_cases h : (n.attr "href" == "" || n.attr "title" == "" || n.attr "type" == "") = true
  · simp [parseGuideItem, h, warnD, addDiag]
  · by_cases h2 : typeFromString (n.attr "type") = StandardType.Other <;>
      simp [parseGuideItem, h, h2]

theorem guidePass_frame (doc : Option XNode) (st : St) :
    ((guidePass doc st).items = st.items) ∧
    ((guidePass doc st).orderedItems = st.orderedItems) ∧
    ((guidePass doc st).unorderedItems = st.unorderedItems) ∧
    ((guidePass doc st).stages = st.stages) := by
  rw [guidePass]
  generalize flatMapL (descByTag "reference") (docByTag "guide" doc) = l
  induction l generalizing st with
  | nil => simp
  | cons n rest ih =>
    simp only [List.foldl_cons]
    have h := parseGuideItem_frame n st
    have h2 := ih ((parseGuideItem n st).2)
    exact ⟨h2.1.trans h.1, (h2.2.1).trans h.2.1, (h2.2.2.1).trans h.2.2.1,
      (h2.2.2.2).trans h.2.2.2⟩

theorem parseContentFile_stages (arch : Archive) (p : String) (st : St) :
    ((parseContentFile arch p st).2).stages = st.stages := by
  rw [parseContentFile]
  cases findEntry arch p with
  | none => simp [errD, addDiag]
  | some entry =>
    simp only
    rw [(guidePass_frame _ _).2.2.2, (spinePass_frame _ _).2,
      (manifestPass_frame _ _ _).2, (metadataPass_frame _ _).2.2.2]

theorem tryRootfiles_stages (arch : Archive) (es : List XNode) (st : St) :
    ((tryRootfiles arch es st).2).stages = st.stages := by
  induction es generalizing st with
  | nil => simp [tryRootfiles, errD, addDiag]
  | cons e rest ih =>
    rw [tryRootfiles]
    split
    · rw [ih]
      simp [warnD, addDiag]
    · cases hc : parseContentFile arch (e.attr "full-path") st with
      | mk b st' =>
        cases b with
        | true =>
          simp only
          have := parseContentFile_stages arch (e.attr "full-path") st
          rw [hc] at this
          exact this
        | false =>
          simp only
          rw [ih]
          have := parseContentFile_stages arch (e.attr "full-path") st
          rw [hc] at this
          exact this

theorem parseContainer_stages (arch : Archive) (files : List String) (st : St) :
    ((parseContainer arch files st).2).stages = st.stages := by
  by_cases h : "META-INF/container.xml" ∈ files
  · cases he : findEntry arch "META-INF/container.xml" with
    | none => simp [parseContainer, h, he, errD, addDiag]
    | some entry => simp [parseContainer, h, he, tryRootfiles_stages]
  · simp [parseContainer, h, errD, addDiag]

theorem parseMimetype_frame (arch : Archive) (files : List String) (st : St) :
    ((parseMimetype arch files st).2.items = st.items) ∧
    ((parseMimetype arch files st).2.orderedItems = st.orderedItems) ∧
    ((parseMimetype arch files st).2.unorderedItems = st.unorderedItems) ∧
    ((parseMimetype arch files st).2.stages = st.stages) := by
  by_cases h : "mimetype" ∈ files
  · cases he : findEntry arch "mimetype" with
    | none => simp [parseMimetype, h, he, errD, addDiag]
    | some entry =>
      by_cases hr : entry.raw = "application/epub+zip" <;>
        simp [parseMimetype, h, he, hr, errD, addDiag]
  · simp [parseMimetype, h, errD, addDiag]

theorem parseToc_frame (fuel : Nat) (arch : Archive) (files : List String) (st : St)
    (b : Bool) (st' : St) (h : parseToc fuel arch files st = some (b, st')) :
    st'.items = st.items ∧ st'.orderedItems = st.orderedItems ∧
    st'.unorderedItems = st.unorderedItems ∧ st'.stages = st.stages := by
  rw [parseToc] at h
  split at h
  · split at h
    · simp only [Option.some.injEq, Prod.mk.injEq] at h
      rw [← h.2]
      simp [errD, addDiag]
    · rename_i entry heq
      cases hx : entry.xml with
      | none =>
        rw [hx] at h
        simp only [Option.some.injEq, Prod.mk.injEq] at h
        rw [← h.2]
        exact ⟨rfl, rfl, rfl, rfl⟩
      | some root =>
        rw [hx] at h
        simp only at h
        cases hloop : tocHeadLoop fuel (headFirstMeta root) (headNavSib root)
            st.toc.metadata with
        | none => rw [hloop] at h; exact Option.noConfusion h
        | some m =>
          rw [hloop] at h
          simp only [Option.some.injEq, Prod.mk.injEq] at h
          rw [← h.2]
          exact ⟨rfl, rfl, rfl, rfl⟩
  · simp only [Option.some.injEq, Prod.mk.injEq] at h
    rw [← h.2]
    exact ⟨rfl, rfl, rfl, rfl⟩

/-! Claim C4: the mimetype stage. -/

theorem findEntry_isSome_of_mem (arch : Archive) (n : String) (h : n ∈ fileNames arch) :
    (findEntry arch n).isSome := by
  induction arch with
  | nil => simp [fileNames] at h
  | cons p rest ih =>
    by_cases hp : p.1 = n
    · simp [findEntry, hp]
    · have hm : n ∈ fileNames rest := by
        simp [fileNames] at h ⊢
        rcases h with h | h
        · exact absurd h.symm hp
        · exact h
      have := ih hm
      simpa [findEntry, hp] using this

theorem parseMimetype_fst_true (arch : Archive) (st : St)
    (h : "mimetype" ∈ fileNames arch) :
    (parseMimetype arch (fileNames arch) st).1 = true := by
  have hs := findEntry_isSome_of_mem arch "mimetype" h
  cases he : findEntry arch "mimetype" with
  | none => rw [he] at hs; simp at hs
  | some e =>
    by_cases hr : e.raw = "application/epub+zip" <;>
      simp [parseMimetype, h, he, hr]

/-- Counterexample to claim C4 as stated: with a mimetype entry whose
content is "text/plain", the stage emits the errorHappened signal — an
error event, not a warning — while still reporting success, so the
mismatched-content case is not "a non-fatal warning only". -/
theorem claim_c4_counterexample :
    (parseMimetype archM ["mimetype"] st0).1 = true ∧
    (parseMimetype archM ["mimetype"] st0).2.diags
      = [(Sev.err, "Unexpected mimetype text/plain")] := by
  exact ⟨rfl, rfl⟩

/-- Claim C4, amended. An archive with no mimetype entry makes openFile
fail with exactly one error event and neither the container stage nor the
toc stage runs; a present mimetype entry with mismatched content makes
parseMimetype emit one error event (through the same errorHappened signal,
not a warning) yet still report success, and openFile goes on to the
container stage whenever the mimetype entry exists. -/
theorem claim_c4_amended :
    (∀ (fuel : Nat) (arch : Archive), "mimetype" ∉ fileNames arch →
      ∃ st : St, openFile fuel arch = some (false, st) ∧
        (st.diags.filter (fun d => d.1 == Sev.err)).length = 1 ∧
        Stage.container ∉ st.stages ∧ Stage.toc ∉ st.stages) ∧
    (∀ (arch : Archive) (files : List String) (st : St) (e : ZipEntry),
      "mimetype" ∈ files → findEntry arch "mimetype" = some e →
      e.raw ≠ "application/epub+zip" →
      parseMimetype arch files st = (true, errD ("Unexpected mimetype " ++ e.raw) st)) ∧
    (∀ (fuel : Nat) (arch : Archive) (b : Bool) (st' : St),
      "mimetype" ∈ fileNames arch →
      openFile fuel arch = some (b, st') → Stage.container ∈ st'.stages) := by
  refine ⟨?_, ?_, ?_⟩
  · intro fuel arch h
    by_cases hempty : (fileNames arch).isEmpty
    · refine ⟨errD "Failed to read" st0, ?_, ?_, ?_, ?_⟩ <;>
        simp [openFile, hempty, errD, addDiag, st0]
    · have hpm : parseMimetype arch (fileNames arch)
          { st0 with stages := st0.stages ++ [Stage.mimetype] }
          = (false, errD "Unable to find mimetype in file"
              { st0 with stages := st0.stages ++ [Stage.mimetype] }) := by
        simp [parseMimetype, h]
      refine ⟨errD "Unable to find mimetype in file"
          { st0 with stages := st0.stages ++ [Stage.mimetype] }, ?_, ?_, ?_, ?_⟩
      · simp only [openFile]
        rw [if_neg (by simpa using hempty)]
        rw [hpm]
      · simp [errD, addDiag, st0]
      · simp [errD, addDiag, st0]
      · simp [errD, addDiag, st0]
  · intro arch files st e hmem he hr
    simp [parseMimetype, hmem, he, hr]
  · intro fuel arch b st' hmem hp
    have hne : ¬ (fileNames arch).isEmpty := by
      intro hc
      rw [List.isEmpty_iff] at hc
      rw [hc] at hmem
      simp at hmem
    simp only [openFile] at hp
    rw [if_neg (by simpa using hne)] at hp
    set st1 : St := { st0 with stages := st0.stages ++ [Stage.mimetype] } with hst1
    cases hpm : parseMimetype arch (fileNames arch) st1 with
    | mk pb pst =>
      cases pb with
      | false =>
        have := parseMimetype_fst_true arch st1 hmem
        rw [hpm] at this
        exact absurd this (by simp)
      | true =>
        rw [hpm] at hp
        simp only at hp
        set st2 : St := { pst with stages := pst.stages ++ [Stage.container] } with hst2
        have hcmem : Stage.container ∈ st2.stages := by simp [hst2]
        cases hpc : parseContainer arch (fileNames arch) st2 with
        | mk cb cst =>
          have hcst : cst.stages = st2.stages := by
            have := parseContainer_stages arch (fileNames arch) st2
            rw [hpc] at this
            exact this
          cases cb with
          | false =>
            rw [hpc] at hp
            simp only [Option.some.injEq, Prod.mk.injEq] at hp
            rw [← hp.2, hcst]
            exact hcmem
          | true =>
            rw [hpc] at hp
            simp only at hp
            have hframe := parseToc_frame fuel arch (fileNames arch)
              { cst with stages := cst.stages ++ [Stage.toc] } b st' hp
            rw [hframe.2.2.2]
            simp [hcst, hst2]

/-- Witness for the amended claim C4: a non-empty archive with no
mimetype entry, the mismatched-content archive, and the valid archive on
which the container stage runs. -/
theorem claim_c4_witness :
    (∃ st : St, openFile 1 archN = some (false, st) ∧
      (st.diags.filter (fun d => d.1 == Sev.err)).length = 1 ∧
      Stage.container ∉ st.stages ∧ Stage.toc ∉ st.stages) ∧
    parseMimetype archM ["mimetype"] st0
      = (true, errD ("Unexpected mimetype " ++ "text/plain") st0) ∧
    Stage.container ∈ stW.stages := by
  refine ⟨claim_c4_amended.1 1 archN (by decide),
    claim_c4_amended.2.1 archM ["mimetype"] st0 ⟨"text/plain", none⟩
      (by decide) rfl (by decide),
    claim_c4_amended.2.2 10 archW true stW (by decide) rfl⟩

/-! Claim C3: the container stage and the rootfile candidate loop. -/

theorem parseContentFile_succeeds (arch : Archive) (p : String) (st : St) :
    (parseContentFile arch p st).1 = true ↔ (findEntry arch p).isSome := by
  rw [parseContentFile]
  cases findEntry arch p <;> simp

theorem parseContentFile_none (arch : Archive) (p : String) (st : St)
    (h : findEntry arch p = none) :
    parseContentFile arch p st
      = (false, errD "Malformed metadata, unable to get content metadata path" st) := by
  rw [parseContentFile, h]

theorem tripleOf_ext (st₁ st₂ : St) (h : tripleOf st₁ = tripleOf st₂) :
    st₁.items = st₂.items ∧ st₁.orderedItems = st₂.orderedItems ∧
    st₁.unorderedItems = st₂.unorderedItems := by
  simp [tripleOf, Prod.ext_iff] at h
  exact ⟨h.1, h.2.1, h.2.2⟩

theorem parseManifestItem_det (n : XNode) (folder : String) (st₁ st₂ : St)
    (h : tripleOf st₁ = tripleOf st₂) :
    tripleOf ((parseManifestItem n folder st₁).2)
      = tripleOf ((parseManifestItem n folder st₂).2) := by
  obtain ⟨hi, ho, hu⟩ := tripleOf_ext _ _ h
  by_cases hc : (n.attr "id" == "" || n.attr "href" == "") = true
  · simp [parseManifestItem, hc, tripleOf, warnD, addDiag, hi, ho, hu]
  · by_cases h2 : n.attr "media-type" ∈ documentTypes <;>
      simp [parseManifestItem, hc, h2, tripleOf, hi, ho, hu]

theorem manifestFold_det (l : List XNode) (folder : String) (st₁ st₂ : St)
    (h : tripleOf st₁ = tripleOf st₂) :
    tripleOf (l.foldl (fun st n => (parseManifestItem n folder st).2) st₁)
      = tripleOf (l.foldl (fun st n => (parseManifestItem n folder st).2) st₂) := by
  induction l generalizing st₁ st₂ with
  | nil => simpa using h
  | cons n rest ih =>
    simp only [List.foldl_cons]
    exact ih _ _ (parseManifestItem_det n folder st₁ st₂ h)

theorem parseSpineItem_det (n : XNode) (st₁ st₂ : St)
    (h : tripleOf st₁ = tripleOf st₂) :
    tripleOf ((parseSpineItem n st₁).2) = tripleOf ((parseSpineItem n st₂).2) := by
  obtain ⟨hi, ho, hu⟩ := tripleOf_ext _ _ h
  by_cases h1 : n.attr "idref" = ""
  · simp [parseSpineItem, h1, tripleOf, warnD, addDiag, hi, ho, hu]
  · by_cases h2 : n.attr "idref" ∈ keysA st₁.items
    · have h2' : n.attr "idref" ∈ keysA st₂.items := by rw [← hi]; exact h2
      simp [parseSpineItem, h1, h2, h2', tripleOf, hi, ho, hu]
    · have h2' : n.attr "idref" ∉ keysA st₂.items := by rw [← hi]; exact h2
      simp [parseSpineItem, h1, h2, h2', tripleOf, warnD, addDiag, hi, ho, hu]

theorem spineFold_det (l : List XNode) (st₁ st₂ : St)
    (h : tripleOf st₁ = tripleOf st₂) :
    tripleOf (l.foldl (fun st n => (parseSpineItem n st).2) st₁)
      = tripleOf (l.foldl (fun st n => (parseSpineItem n st).2) st₂) := by
  induction l generalizing st₁ st₂ with
  | nil => simpa using h
  | cons n rest ih =>
    simp only [List.foldl_cons]
    exact ih _ _ (parseSpineItem_det n st₁ st₂ h)

theorem spineElemPass_det (e : XNode) (st₁ st₂ : St)
    (h : tripleOf st₁ = tripleOf st₂) :
    tripleOf (spineElemPass e st₁) = tripleOf (spineElemPass e st₂) := by
  rw [spineElemPass, spineElemPass]
  have htoc₁ := spineTocStep_frame e st₁
  have htoc₂ := spineTocStep_frame e st₂
  have h0 : tripleOf (spineTocStep e st₁) = tripleOf (spineTocStep e st₂) := by
    obtain ⟨hi, ho, hu⟩ := tripleOf_ext _ _ h
    simp [tripleOf, htoc₁.1, htoc₁.2.1, htoc₁.2.2.1, htoc₂.1, htoc₂.2.1, htoc₂.2.2.1,
      hi, ho, hu]
  exact spineFold_det _ _ _ h0

theorem spinePass_det (doc : Option XNode) (st₁ st₂ : St)
    (h : tripleOf st₁ = tripleOf st₂) :
    tripleOf (spinePass doc st₁) = tripleOf (spinePass doc st₂) := by
  rw [spinePass, spinePass]
  generalize docByTag "spine" doc = l
  induction l generalizing st₁ st₂ with
  | nil => simpa using h
  | cons e rest ih =>
    simp only [List.foldl_cons]
    exact ih _ _ (spineElemPass_det e st₁ st₂ h)

theorem metadataPass_triple (doc : Option XNode) (st : St) :
    tripleOf (metadataPass doc st) = tripleOf st := by
  have h := metadataPass_frame doc st
  simp [tripleOf, h.1, h.2.1, h.2.2.1]

theorem guidePass_triple (doc : Option XNode) (st : St) :
    tripleOf (guidePass doc st) = tripleOf st := by
  have h := guidePass_frame doc st
  simp [tripleOf, h.1, h.2.1, h.2.2.1]

theorem manifestPass_det (doc : Option XNode) (folder : String) (st₁ st₂ : St)
    (h : tripleOf st₁ = tripleOf st₂) :
    tripleOf (manifestPass doc folder st₁) = tripleOf (manifestPass doc folder st₂) := by
  rw [manifestPass, manifestPass]
  exact manifestFold_det _ folder _ _ h

theorem parseContentFile_det (arch : Archive) (p : String) (st₁ st₂ : St)
    (h : tripleOf st₁ = tripleOf st₂) :
    tripleOf ((parseContentFile arch p st₁).2)
      = tripleOf ((parseContentFile arch p st₂).2) := by
  rw [parseContentFile, parseContentFile]
  cases findEntry arch p with
  | none =>
    obtain ⟨hi, ho, hu⟩ := tripleOf_ext _ _ h
    simp [tripleOf, errD, addDiag, hi, ho, hu]
  | some entry =>
    simp only
    have hmeta : tripleOf (metadataPass entry.xml st₁)
        = tripleOf (metadataPass entry.xml st₂) :=
      (metadataPass_triple _ st₁).trans (h.trans (metadataPass_triple _ st₂).symm)
    have hman := manifestPass_det entry.xml (contentFileFolder p) _ _ hmeta
    have hspine := spinePass_det entry.xml _ _ hman
    exact (guidePass_triple _ _).trans (hspine.trans (guidePass_triple _ _).symm)

theorem tripleOf_warnD (m : String) (st : St) : tripleOf (warnD m st) = tripleOf st :=
  rfl

theorem tripleOf_errD (m : String) (st : St) : tripleOf (errD m st) = tripleOf st :=
  rfl

theorem tryRootfiles_spec (arch : Archive) (es : List XNode) (st : St) :
    ((tryRootfiles arch es st).1 = true ↔ ∃ e ∈ es, validCand arch e = true) ∧
    ((tryRootfiles arch es st).1 = true →
      ∃ e, es.find? (validCand arch) = some e ∧
        tripleOf (tryRootfiles arch es st).2
          = tripleOf ((parseContentFile arch (e.attr "full-path") st).2)) := by
  induction es generalizing st with
  | nil =>
    constructor
    · simp [tryRootfiles]
    · simp [tryRootfiles]
  | cons e rest ih =>
    by_cases hp : e.attr "full-path" = ""
    · have hv : validCand arch e = false := by simp [validCand, hp]
      have heq : tryRootfiles arch (e :: rest) st
          = tryRootfiles arch rest (warnD "Invalid root file entry" st) := by
        rw [tryRootfiles]
        simp [hp]
      rw [heq]
      have ihw := ih (warnD "Invalid root file entry" st)
      constructor
      · rw [ihw.1]
        constructor
        · rintro ⟨e', he', hv'⟩
          exact ⟨e', by simp [he'], hv'⟩
        · rintro ⟨e', he', hv'⟩
          rcases List.mem_cons.mp he' with rfl | hm
          · rw [hv] at hv'
            exact absurd hv' (by simp)
          · exact ⟨e', hm, hv'⟩
      · intro hs
        obtain ⟨e', hfind, htr⟩ := ihw.2 hs
        refine ⟨e', ?_, ?_⟩
        · rw [List.find?_cons_of_neg _ (by simp [hv]), hfind]
        · exact htr.trans (parseContentFile_det arch _ _ _ (tripleOf_warnD _ _))
    · cases hpc : parseContentFile arch (e.attr "full-path") st with
      | mk b st' =>
        cases b with
        | true =>
          have hsome : (findEntry arch (e.attr "full-path")).isSome = true := by
            have hiff := parseContentFile_succeeds arch (e.attr "full-path") st
            rw [hpc] at hiff
            exact hiff.mp rfl
          have hv : validCand arch e = true := by simp [validCand, hp, hsome]
          have heq : tryRootfiles arch (e :: rest) st = (true, st') := by
            rw [tryRootfiles]
            simp [hp, hpc]
          rw [heq]
          constructor
          · simp only [true_iff]
            exact ⟨e, by simp, hv⟩
          · intro _
            refine ⟨e, ?_, ?_⟩
            · rw [List.find?_cons_of_pos _ hv]
            · rw [hpc]
        | false =>
          have hnone : findEntry arch (e.attr "full-path") = none := by
            have hiff := parseContentFile_succeeds arch (e.attr "full-path") st
            rw [hpc] at hiff
            cases hfe : findEntry arch (e.attr "full-path") with
            | none => rfl
            | some x =>
              rw [hfe] at hiff
              simp at hiff
          have hv : validCand arch e = false := by simp [validCand, hp, hnone]
          have hst' : st' = errD "Malformed metadata, unable to get content metadata path" st := by
            have hn := parseContentFile_none arch (e.attr "full-path") st hnone
            rw [hpc] at hn
            exact congrArg Prod.snd hn
          have heq : tryRootfiles arch (e :: rest) st = tryRootfiles arch rest st' := by
            rw [tryRootfiles]
            simp [hp, hpc]
          rw [heq]
          have ihs := ih st'
          constructor
          · rw [ihs.1]
            constructor
            · rintro ⟨e', he', hv'⟩
              exact ⟨e', by simp [he'], hv'⟩
            · rintro ⟨e', he', hv'⟩
              rcases List.mem_cons.mp he' with rfl | hm
              · rw [hv] at hv'
                exact absurd hv' (by simp)
              · exact ⟨e', hm, hv'⟩
          · intro hs
            obtain ⟨e', hfind, htr⟩ := ihs.2 hs
            refine ⟨e', ?_, ?_⟩
            · rw [List.find?_cons_of_neg _ (by simp [hv]), hfind]
            · refine htr.trans ?_
              rw [hst']
              exact parseContentFile_det arch _ _ _ (tripleOf_errD _ _)

theorem tryRootfiles_fail_diag (arch : Archive) (es : List XNode) (st : St)
    (h : (tryRootfiles arch es st).1 = false) :
    ((tryRootfiles arch es st).2.diags).getLast?
      = some (Sev.err, "Unable to find and use any content files") := by
  induction es generalizing st with
  | nil => simp [tryRootfiles, errD, addDiag]
  | cons e rest ih =>
    by_cases hp : e.attr "full-path" = ""
    · have heq : tryRootfiles arch (e :: rest) st
          = tryRootfiles arch rest (warnD "Invalid root file entry" st) := by
        rw [tryRootfiles]
        simp [hp]
      rw [heq] at h ⊢
      exact ih _ h
    · cases hpc : parseContentFile arch (e.attr "full-path") st with
      | mk b st' =>
        cases b with
        | true =>
          have heq : tryRootfiles arch (e :: rest) st = (true, st') := by
            rw [tryRootfiles]
            simp [hp, hpc]
          rw [heq] at h
          simp at h
        | false =>
          have heq : tryRootfiles arch (e :: rest) st = tryRootfiles arch rest st' := by
            rw [tryRootfiles]
            simp [hp, hpc]
          rw [heq] at h ⊢
          exact ih _ h

/-- Claim C3. parseContainer fails with an error when META-INF/container.xml
is absent; an empty full-path candidate is skipped with only a warning; with
the container present, the stage succeeds exactly when some rootfile
candidate has a non-empty full-path naming an openable entry (a package
document elsewhere in the archive is irrelevant), an all-candidates-fail run
ends in the stage-fatal error event, and on success the populated
manifest/spine state is exactly that of parsing the first such candidate. -/
theorem claim_c3 :
    (∀ (arch : Archive) (files : List String) (st : St),
      "META-INF/container.xml" ∉ files →
      parseContainer arch files st
        = (false, errD "Unable to find container information" st)) ∧
    (∀ (arch : Archive) (e : XNode) (rest : List XNode) (st : St),
      e.attr "full-path" = "" →
      tryRootfiles arch (e :: rest) st
        = tryRootfiles arch rest (warnD "Invalid root file entry" st)) ∧
    (∀ (arch : Archive) (files : List String) (st : St) (c : ZipEntry),
      "META-INF/container.xml" ∈ files →
      findEntry arch "META-INF/container.xml" = some c →
      (((parseContainer arch files st).1 = true) ↔
        ∃ e ∈ docByTag "rootfile" c.xml, validCand arch e = true) ∧
      ((parseContainer arch files st).1 = false →
        ((parseContainer arch files st).2.diags).getLast?
          = some (Sev.err, "Unable to find and use any content files")) ∧
      ((parseContainer arch files st).1 = true →
        ∃ e, (docByTag "rootfile" c.xml).find? (validCand arch) = some e ∧
          tripleOf (parseContainer arch files st).2
            = tripleOf ((parseContentFile arch (e.attr "full-path") st).2))) := by
  refine ⟨?_, ?_, ?_⟩
  · intro arch files st h
    simp [parseContainer, h]
  · intro arch e rest st h
    rw [tryRootfiles]
    simp [h]
  · intro arch files st c hmem hc
    have hpc : parseContainer arch files st
        = tryRootfiles arch (docByTag "rootfile" c.xml) st := by
      simp [parseContainer, hmem, hc]
    rw [hpc]
    exact ⟨(tryRootfiles_spec arch _ st).1,
      tryRootfiles_fail_diag arch _ st,
      (tryRootfiles_spec arch _ st).2⟩

/-- Witness for claim C3: the container-less archive archN fails the stage,
an empty full-path rootfile is skipped with a warning, and on the valid
archive archW the stage succeeds via its single candidate. -/
theorem claim_c3_witness :
    (parseContainer archN ["other"] st0
      = (false, errD "Unable to find container information" st0)) ∧
    (tryRootfiles archW [XNode.elem "" "rootfile" [("full-path", "")] []] st0
      = tryRootfiles archW [] (warnD "Invalid root file entry" st0)) ∧
    (((parseContainer archW (fileNames archW) st0).1 = true) ↔
      ∃ e ∈ docByTag "rootfile" (containerXml ["OEBPS/content.opf"]).xml,
        validCand archW e = true) := by
  refine ⟨?_, ?_, ?_⟩
  · exact claim_c3.1 archN ["other"] st0 (by decide)
  · exact claim_c3.2.1 archW (XNode.elem "" "rootfile" [("full-path", "")] []) [] st0
      (by decide)
  · exact (claim_c3.2.2 archW (fileNames archW) st0 (containerXml ["OEBPS/content.opf"])
      (by decide) rfl).1

/-! Claims C1 and C2: the spine reading order and the
ordered/unordered partition of the manifest. -/

theorem manifestFold_spec (l : List XNode) (folder : String) (st : St) :
    ((l.foldl (fun st n => (parseManifestItem n folder st).2) st).orderedItems
      = st.orderedItems) ∧
    (∀ a, a ∈ keysA (l.foldl (fun st n => (parseManifestItem n folder st).2) st).items
      ↔ a ∈ validIdsL l ∨ a ∈ keysA st.items) ∧
    (∀ a, a ∈ (l.foldl (fun st n => (parseManifestItem n folder st).2) st).unorderedItems
      ↔ a ∈ docIdsL l ∨ a ∈ st.unorderedItems) := by
  induction l generalizing st with
  | nil => simp [validIdsL, docIdsL]
  | cons n rest ih =>
    simp only [List.foldl_cons]
    by_cases hid : n.attr "id" = ""
    · have hstep : (parseManifestItem n folder st).2 = warnD "Invalid item" st := by
        simp [parseManifestItem, hid]
      have hpred : ¬ (!(n.attr "id" == "") && !(n.attr "href" == "")) = true := by
        simp [hid]
      have hpred2 : ¬ (!(n.attr "id" == "") && !(n.attr "href" == "")
          && documentTypes.contains (n.attr "media-type")) = true := by
        simp [hid]
      have hval : validIdsL (n :: rest) = validIdsL rest := by
        unfold validIdsL
        rw [List.filter_cons_of_neg
          (p := fun (m : XNode) => !(XNode.attr m "id" == "") && !(XNode.attr m "href" == "")) hpred]
      have hdocl : docIdsL (n :: rest) = docIdsL rest := by
        unfold docIdsL
        rw [List.filter_cons_of_neg (p := fun (m : XNode) => !(XNode.attr m "id" == "")
          && !(XNode.attr m "href" == "") && documentTypes.contains (XNode.attr m "media-type")) hpred2]
      rw [hstep]
      have ihw := ih (warnD "Invalid item" st)
      exact ⟨ihw.1, fun a => by rw [ihw.2.1 a, hval]; exact Iff.rfl,
        fun a => by rw [ihw.2.2 a, hdocl]; exact Iff.rfl⟩
    · by_cases hhref : n.attr "href" = ""
      · have hstep : (parseManifestItem n folder st).2 = warnD "Invalid item" st := by
          simp [parseManifestItem, hid, hhref]
        have hpred : ¬ (!(n.attr "id" == "") && !(n.attr "href" == "")) = true := by
          simp [hhref]
        have hpred2 : ¬ (!(n.attr "id" == "") && !(n.attr "href" == "")
            && documentTypes.contains (n.attr "media-type")) = true := by
          simp [hhref]
        have hval : validIdsL (n :: rest) = validIdsL rest := by
          unfold validIdsL
          rw [List.filter_cons_of_neg
            (p := fun (m : XNode) => !(XNode.attr m "id" == "") && !(XNode.attr m "href" == "")) hpred]
        have hdocl : docIdsL (n :: rest) = docIdsL rest := by
          unfold docIdsL
          rw [List.filter_cons_of_neg (p := fun (m : XNode) => !(XNode.attr m "id" == "")
            && !(XNode.attr m "href" == "") && documentTypes.contains (XNode.attr m "media-type")) hpred2]
        rw [hstep]
        have ihw := ih (warnD "Invalid item" st)
        exact ⟨ihw.1, fun a => by rw [ihw.2.1 a, hval]; exact Iff.rfl,
          fun a => by rw [ihw.2.2 a, hdocl]; exact Iff.rfl⟩
      · have hpred : (!(n.attr "id" == "") && !(n.attr "href" == "")) = true := by
          simp [hid, hhref]
        have hval : validIdsL (n :: rest) = n.attr "id" :: validIdsL rest := by
          unfold validIdsL
          rw [List.filter_cons_of_pos
            (p := fun (m : XNode) => !(XNode.attr m "id" == "") && !(XNode.attr m "href" == "")) hpred]
          rfl
        by_cases hdoc : n.attr "media-type" ∈ documentTypes
        · have hstep : (parseManifestItem n folder st).2
              = { st with
                  items := insertA (n.attr "id")
                    ⟨n.attr "media-type", cleanPath (folder ++ n.attr "href")⟩ st.items,
                  unorderedItems := insertS (n.attr "id") st.unorderedItems } := by
            simp [parseManifestItem, hid, hhref, hdoc]
          have hpred2 : (!(n.attr "id" == "") && !(n.attr "href" == "")
              && documentTypes.contains (n.attr "media-type")) = true := by
            simp [hid, hhref, hdoc]
          have hdocl : docIdsL (n :: rest) = n.attr "id" :: docIdsL rest := by
            unfold docIdsL
            rw [List.filter_cons_of_pos (p := fun (m : XNode) => !(XNode.attr m "id" == "")
              && !(XNode.attr m "href" == "") && documentTypes.contains (XNode.attr m "media-type")) hpred2]
            rfl
          rw [hstep]
          have ihw := ih { st with
            items := insertA (n.attr "id")
              ⟨n.attr "media-type", cleanPath (folder ++ n.attr "href")⟩ st.items,
            unorderedItems := insertS (n.attr "id") st.unorderedItems }
          refine ⟨ihw.1, ?_, ?_⟩
          · intro a
            rw [ihw.2.1 a, hval]
            simp only [List.mem_cons, mem_keysA_insertA]
            tauto
          · intro a
            rw [ihw.2.2 a, hdocl]
            simp only [List.mem_cons, mem_insertS]
            tauto
        · have hstep : (parseManifestItem n folder st).2
              = { st with
                  items := insertA (n.attr "id")
                    ⟨n.attr "media-type", cleanPath (folder ++ n.attr "href")⟩ st.items } := by
            simp [parseManifestItem, hid, hhref, hdoc]
          have hpred2 : ¬ (!(n.attr "id" == "") && !(n.attr "href" == "")
              && documentTypes.contains (n.attr "media-type")) = true := by
            simp [hid, hhref, hdoc]
          have hdocl : docIdsL (n :: rest) = docIdsL rest := by
            unfold docIdsL
            rw [List.filter_cons_of_neg (p := fun (m : XNode) => !(XNode.attr m "id" == "")
              && !(XNode.attr m "href" == "") && documentTypes.contains (XNode.attr m "media-type")) hpred2]
          rw [hstep]
          have ihw := ih { st with
            items := insertA (n.attr "id")
              ⟨n.attr "media-type", cleanPath (folder ++ n.attr "href")⟩ st.items }
          refine ⟨ihw.1, ?_, ?_⟩
          · intro a
            rw [ihw.2.1 a, hval]
            simp only [List.mem_cons, mem_keysA_insertA]
            tauto
          · intro a
            rw [ihw.2.2 a, hdocl]

theorem spineFold_spec (l : List XNode) (st : St) :
    ((l.foldl (fun st n => (parseSpineItem n st).2) st).items = st.items) ∧
    ((l.foldl (fun st n => (parseSpineItem n st).2) st).orderedItems
      = st.orderedItems ++ (spineRefsL l).filter
          (fun r => !(r == "") && (keysA st.items).contains r)) ∧
    (∀ a, a ∈ (l.foldl (fun st n => (parseSpineItem n st).2) st).unorderedItems
      ↔ a ∈ st.unorderedItems ∧
        a ∉ (spineRefsL l).filter (fun r => !(r == "") && (keysA st.items).contains r)) := by
  induction l generalizing st with
  | nil => simp [spineRefsL]
  | cons n rest ih =>
    simp only [List.foldl_cons]
    have hrefs : spineRefsL (n :: rest) = n.attr "idref" :: spineRefsL rest := rfl
    by_cases h1 : n.attr "idref" = ""
    · have hstep : (parseSpineItem n st).2 = warnD "Invalid spine item" st := by
        simp [parseSpineItem, h1]
      have hpred : ¬ (!(n.attr "idref" == "")
          && (keysA st.items).contains (n.attr "idref")) = true := by
        simp [h1]
      rw [hstep]
      have ihw := ih (warnD "Invalid spine item" st)
      refine ⟨ihw.1, ?_, ?_⟩
      · rw [ihw.2.1, hrefs, List.filter_cons_of_neg
          (p := fun r => !(r == "") && (keysA st.items).contains r) hpred]
        rfl
      · intro a
        rw [ihw.2.2 a, hrefs, List.filter_cons_of_neg
          (p := fun r => !(r == "") && (keysA st.items).contains r) hpred]
        exact Iff.rfl
    · by_cases h2 : n.attr "idref" ∈ keysA st.items
      · have hstep : (parseSpineItem n st).2
            = { st with
                unorderedItems := removeS (n.attr "idref") st.unorderedItems,
                orderedItems := st.orderedItems ++ [n.attr "idref"] } := by
          simp [parseSpineItem, h1, h2]
        have hpred : (!(n.attr "idref" == "")
            && (keysA st.items).contains (n.attr "idref")) = true := by
          simp [h1, h2]
        rw [hstep]
        have ihw := ih { st with
          unorderedItems := removeS (n.attr "idref") st.unorderedItems,
          orderedItems := st.orderedItems ++ [n.attr "idref"] }
        refine ⟨ihw.1, ?_, ?_⟩
        · rw [ihw.2.1, hrefs, List.filter_cons_of_pos
            (p := fun r => !(r == "") && (keysA st.items).contains r) hpred]
          simp
        · intro a
          rw [ihw.2.2 a, hrefs, List.filter_cons_of_pos
            (p := fun r => !(r == "") && (keysA st.items).contains r) hpred]
          simp only [mem_removeS, List.mem_cons]
          tauto
      · have hstep : (parseSpineItem n st).2
            = warnD ("Unable to find " ++ n.attr "idref" ++ " in items") st := by
          simp [parseSpineItem, h1, h2]
        have hpred : ¬ (!(n.attr "idref" == "")
            && (keysA st.items).contains (n.attr "idref")) = true := by
          simp [h1, h2]
        rw [hstep]
        have ihw := ih (warnD ("Unable to find " ++ n.attr "idref" ++ " in items") st)
        refine ⟨ihw.1, ?_, ?_⟩
        · rw [ihw.2.1, hrefs, List.filter_cons_of_neg
            (p := fun r => !(r == "") && (keysA st.items).contains r) hpred]
          rfl
        · intro a
          rw [ihw.2.2 a, hrefs, List.filter_cons_of_neg
            (p := fun r => !(r == "") && (keysA st.items).contains r) hpred]
          exact Iff.rfl

theorem spineElemPass_spec (e : XNode) (st : St) :
    ((spineElemPass e st).items = st.items) ∧
    ((spineElemPass e st).orderedItems = st.orderedItems
      ++ (spineRefsL (descByTag "itemref" e)).filter
          (fun r => !(r == "") && (keysA st.items).contains r)) ∧
    (∀ a, a ∈ (spineElemPass e st).unorderedItems ↔ a ∈ st.unorderedItems ∧
      a ∉ (spineRefsL (descByTag "itemref" e)).filter
          (fun r => !(r == "") && (keysA st.items).contains r)) := by
  rw [spineElemPass]
  have htoc := spineTocStep_frame e st
  have hsf := spineFold_spec (descByTag "itemref" e) (spineTocStep e st)
  refine ⟨?_, ?_, ?_⟩
  · rw [hsf.1, htoc.1]
  · rw [hsf.2.1, htoc.2.1]
    simp only [htoc.1]
  · intro a
    rw [hsf.2.2 a]
    simp only [htoc.1, htoc.2.2.1]

theorem spinePassFold_spec (es : List XNode) (st : St) :
    ((es.foldl (fun st e => spineElemPass e st) st).items = st.items) ∧
    ((es.foldl (fun st e => spineElemPass e st) st).orderedItems
      = st.orderedItems ++ (spineRefsL (flatMapL (descByTag "itemref") es)).filter
          (fun r => !(r == "") && (keysA st.items).contains r)) ∧
    (∀ a, a ∈ (es.foldl (fun st e => spineElemPass e st) st).unorderedItems
      ↔ a ∈ st.unorderedItems ∧
        a ∉ (spineRefsL (flatMapL (descByTag "itemref") es)).filter
          (fun r => !(r == "") && (keysA st.items).contains r)) := by
  induction es generalizing st with
  | nil => simp [flatMapL, spineRefsL]
  | cons e rest ih =>
    simp only [List.foldl_cons]
    have hsplit : spineRefsL (flatMapL (descByTag "itemref") (e :: rest))
        = spineRefsL (descByTag "itemref" e)
          ++ spineRefsL (flatMapL (descByTag "itemref") rest) := by
      rw [flatMapL, spineRefsL, spineRefsL, spineRefsL, List.map_append]
    have he := spineElemPass_spec e st
    have ihw := ih (spineElemPass e st)
    refine ⟨?_, ?_, ?_⟩
    · rw [ihw.1, he.1]
    · rw [ihw.2.1, he.2.1, hsplit, List.filter_append]
      simp only [he.1]
      rw [List.append_assoc]
    · intro a
      rw [ihw.2.2 a, hsplit, List.filter_append]
      simp only [he.1, he.2.2 a]
      simp only [List.mem_append]
      tauto

theorem spinePass_spec (doc : Option XNode) (st : St) :
    ((spinePass doc st).items = st.items) ∧
    ((spinePass doc st).orderedItems = st.orderedItems
      ++ (spineRefsOf doc).filter (fun r => !(r == "") && (keysA st.items).contains r)) ∧
    (∀ a, a ∈ (spinePass doc st).unorderedItems ↔ a ∈ st.unorderedItems ∧
      a ∉ (spineRefsOf doc).filter (fun r => !(r == "") && (keysA st.items).contains r)) := by
  rw [spinePass]
  exact spinePassFold_spec (docByTag "spine" doc) st

theorem manifestPass_spec (doc : Option XNode) (folder : String) (st : St) :
    ((manifestPass doc folder st).orderedItems = st.orderedItems) ∧
    (∀ a, a ∈ keysA (manifestPass doc folder st).items
      ↔ a ∈ validIdsOf doc ∨ a ∈ keysA st.items) ∧
    (∀ a, a ∈ (manifestPass doc folder st).unorderedItems
      ↔ a ∈ docIdsOf doc ∨ a ∈ st.unorderedItems) := by
  rw [manifestPass]
  exact manifestFold_spec (manifestElemsOf doc) folder st

theorem contains_congr (l₁ l₂ : List String) (h : ∀ a, a ∈ l₁ ↔ a ∈ l₂) (r : String) :
    l₁.contains r = l₂.contains r := by
  have e1 : l₁.contains r = decide (r ∈ l₁) := by
    simp [List.contains_iff_exists_mem_beq]
  have e2 : l₂.contains r = decide (r ∈ l₂) := by
    simp [List.contains_iff_exists_mem_beq]
  rw [e1, e2]
  exact decide_eq_decide.mpr (h r)

theorem parseContentFile_spec (arch : Archive) (p : String) (st : St) (en : ZipEntry)
    (he : findEntry arch p = some en)
    (h0 : st.items = []) (h1 : st.orderedItems = []) (h2 : st.unorderedItems = []) :
    ((parseContentFile arch p st).2.orderedItems = orderedSpecOf en.xml) ∧
    (∀ a, a ∈ keysA (parseContentFile arch p st).2.items ↔ a ∈ validIdsOf en.xml) ∧
    (∀ a, a ∈ (parseContentFile arch p st).2.unorderedItems
      ↔ a ∈ docIdsOf en.xml ∧ a ∉ orderedSpecOf en.xml) := by
  rw [parseContentFile, he]
  simp only
  have hm := metadataPass_frame en.xml st
  have hmanA := manifestPass_spec en.xml (contentFileFolder p) (metadataPass en.xml st)
  have hsp := spinePass_spec en.xml
    (manifestPass en.xml (contentFileFolder p) (metadataPass en.xml st))
  have hg := guidePass_frame en.xml
    (spinePass en.xml (manifestPass en.xml (contentFileFolder p) (metadataPass en.xml st)))
  have hBkeys : ∀ a,
      a ∈ keysA (manifestPass en.xml (contentFileFolder p)
        (metadataPass en.xml st)).items ↔ a ∈ validIdsOf en.xml := by
    intro a
    rw [hmanA.2.1 a, hm.1, h0]
    simp [keysA]
  have hfilt : (spineRefsOf en.xml).filter
      (fun r => !(r == "") && (keysA (manifestPass en.xml (contentFileFolder p)
        (metadataPass en.xml st)).items).contains r) = orderedSpecOf en.xml := by
    rw [orderedSpecOf]
    refine List.filter_congr ?_
    intro r _
    rw [contains_congr _ _ hBkeys r]
  refine ⟨?_, ?_, ?_⟩
  · rw [hg.2.1, hsp.2.1, hfilt, hmanA.1, hm.2.1, h1, List.nil_append]
  · intro a
    rw [show (guidePass en.xml (spinePass en.xml (manifestPass en.xml
      (contentFileFolder p) (metadataPass en.xml st)))).items
        = (spinePass en.xml (manifestPass en.xml (contentFileFolder p)
          (metadataPass en.xml st))).items from hg.1, hsp.1]
    exact hBkeys a
  · intro a
    rw [show (guidePass en.xml (spinePass en.xml (manifestPass en.xml
      (contentFileFolder p) (metadataPass en.xml st)))).unorderedItems
        = (spinePass en.xml (manifestPass en.xml (contentFileFolder p)
          (metadataPass en.xml st))).unorderedItems from hg.2.2.1]
    rw [hsp.2.2 a, hfilt, hmanA.2.2 a, hm.2.2.1, h2]
    simp

theorem openFile_model (fuel : Nat) (arch : Archive) (st : St)
    (h : openFile fuel arch = some (true, st)) :
    ∃ en, usedRootfile arch = some en ∧
      st.orderedItems = orderedSpecOf en.xml ∧
      (∀ a, a ∈ keysA st.items ↔ a ∈ validIdsOf en.xml) ∧
      (∀ a, a ∈ st.unorderedItems ↔ a ∈ docIdsOf en.xml ∧ a ∉ orderedSpecOf en.xml) := by
  by_cases hempty : (fileNames arch).isEmpty
  · simp [openFile, hempty] at h
  · simp only [openFile] at h
    rw [if_neg (by simpa using hempty)] at h
    set st1 : St := { st0 with stages := st0.stages ++ [Stage.mimetype] } with hst1
    cases hpm : parseMimetype arch (fileNames arch) st1 with
    | mk pb pst =>
      rw [hpm] at h
      cases pb with
      | false => simp at h
      | true =>
        simp only at h
        set st2 : St := { pst with stages := pst.stages ++ [Stage.container] } with hst2
        cases hpc : parseContainer arch (fileNames arch) st2 with
        | mk cb cst =>
          rw [hpc] at h
          cases cb with
          | false => simp at h
          | true =>
            simp only at h
            have hcmem : "META-INF/container.xml" ∈ fileNames arch := by
              by_contra hc
              have hcon : parseContainer arch (fileNames arch) st2
                  = (false, errD "Unable to find container information" st2) := by
                simp [parseContainer, hc]
              rw [hpc] at hcon
              simp at hcon
            have hcsome := findEntry_isSome_of_mem arch _ hcmem
            cases hce : findEntry arch "META-INF/container.xml" with
            | none =>
              rw [hce] at hcsome
              simp at hcsome
            | some c =>
              have hpceq : parseContainer arch (fileNames arch) st2
                  = tryRootfiles arch (docByTag "rootfile" c.xml) st2 := by
                simp [parseContainer, hcmem, hce]
              rw [hpceq] at hpc
              have hspec := tryRootfiles_spec arch (docByTag "rootfile" c.xml) st2
              have htrue : (tryRootfiles arch (docByTag "rootfile" c.xml) st2).1 = true := by
                rw [hpc]
              obtain ⟨e, hfind, htr⟩ := hspec.2 htrue
              have hvc := List.find?_some hfind
              have hesome : (findEntry arch (e.attr "full-path")).isSome = true := by
                simp [validCand] at hvc
                exact hvc.2
              cases hen : findEntry arch (e.attr "full-path") with
              | none =>
                rw [hen] at hesome
                simp at hesome
              | some en =>
                have hmf := parseMimetype_frame arch (fileNames arch) st1
                rw [hpm] at hmf
                have h2i : st2.items = [] := by
                  rw [hst2]
                  simpa [hst1, st0] using hmf.1
                have h2o : st2.orderedItems = [] := by
                  rw [hst2]
                  simpa [hst1, st0] using hmf.2.1
                have h2u : st2.unorderedItems = [] := by
                  rw [hst2]
                  simpa [hst1, st0] using hmf.2.2.1
                have hcf := parseContentFile_spec arch (e.attr "full-path") st2 en hen
                  h2i h2o h2u
                rw [hpc] at htr
                simp only at htr
                obtain ⟨hi, ho, hu⟩ := tripleOf_ext _ _ htr
                have htocf := parseToc_frame fuel arch (fileNames arch)
                  { cst with stages := cst.stages ++ [Stage.toc] } true st h
                have hsti : st.items = cst.items := htocf.1
                have hsto : st.orderedItems = cst.orderedItems := htocf.2.1
                have hstu : st.unorderedItems = cst.unorderedItems := htocf.2.2.1
                refine ⟨en, ?_, ?_, ?_, ?_⟩
                · rw [usedRootfile, hce]
                  simp only [hfind, Option.bind_some]
                  exact hen
                · rw [hsto, ho]
                  exact hcf.1
                · intro a
                  rw [hsti, hi]
                  exact hcf.2.1 a
                · intro a
                  rw [hstu, hu]
                  exact hcf.2.2 a

/-- Claim C1. For every archive openFile succeeds on, orderedIds is
exactly the sequence of idref attributes of the used package document's
spine itemref elements in document order, with each itemref whose idref is
empty or does not name a registered manifest id skipped (contributing
nothing) and the rest kept. -/
theorem claim_c1 (fuel : Nat) (arch : Archive) (st : St)
    (h : openFile fuel arch = some (true, st)) :
    ∃ en, usedRootfile arch = some en ∧
      st.orderedItems
        = (spineRefsOf en.xml).filter
            (fun r => !(r == "") && (validIdsOf en.xml).contains r) := by
  obtain ⟨en, h1, h2, _, _⟩ := openFile_model fuel arch st h
  exact ⟨en, h1, h2⟩

/-- Witness for claim C1 on the concrete valid archive archW, whose spine
lists c1 twice plus one unresolvable idref. -/
theorem claim_c1_witness :
    openFile 10 archW = some (true, stW) ∧
    (∃ en, usedRootfile archW = some en ∧
      stW.orderedItems
        = (spineRefsOf en.xml).filter
            (fun r => !(r == "") && (validIdsOf en.xml).contains r)) := by
  exact ⟨rfl, claim_c1 10 archW stW rfl⟩

/-- Counterexample to claim C2 as stated, on the archive archW: the
manifest id img1 (media type image/png, absent from the spine) is in
neither orderedIds nor unorderedIds, and the spine's duplicated idref c1
puts c1 into orderedIds twice. -/
theorem claim_c2_counterexample :
    openFile 10 archW = some (true, stW) ∧
    "img1" ∈ keysA stW.items ∧
    "img1" ∉ stW.orderedItems ∧
    "img1" ∉ stW.unorderedItems ∧
    ¬ stW.orderedItems.Nodup := by
  refine ⟨rfl, by decide, by decide, by decide, by decide⟩

/-- Claim C2, amended. After a successful openFile: no id is in both
orderedIds and unorderedIds; a manifest id of document media type, or one
in orderedIds, is in at least one of the two; a manifest id of
non-document media type that is not a resolvable spine reference is in
neither; and orderedIds is duplicate-free whenever the resolvable spine
idref occurrences are (a repeated resolvable idref appears once per
occurrence). -/
theorem claim_c2_amended (fuel : Nat) (arch : Archive) (st : St)
    (h : openFile fuel arch = some (true, st)) :
    ∃ en, usedRootfile arch = some en ∧
      (∀ a, a ∈ keysA st.items → ¬(a ∈ st.orderedItems ∧ a ∈ st.unorderedItems)) ∧
      (∀ a, a ∈ keysA st.items → (a ∈ docIdsOf en.xml ∨ a ∈ st.orderedItems) →
        (a ∈ st.orderedItems ∨ a ∈ st.unorderedItems)) ∧
      (∀ a, a ∈ keysA st.items → a ∉ docIdsOf en.xml → a ∉ orderedSpecOf en.xml →
        (a ∉ st.orderedItems ∧ a ∉ st.unorderedItems)) ∧
      ((orderedSpecOf en.xml).Nodup → st.orderedItems.Nodup) := by
  obtain ⟨en, hused, hord, hkeys, hunord⟩ := openFile_model fuel arch st h
  have hordmem : ∀ a, a ∈ st.orderedItems ↔ a ∈ orderedSpecOf en.xml := by
    intro a
    rw [hord]
  refine ⟨en, hused, ?_, ?_, ?_, ?_⟩
  · intro a _ ⟨hao, hau⟩
    have h1 := (hordmem a).mp hao
    have h2 := (hunord a).mp hau
    exact h2.2 h1
  · intro a _ hcase
    rcases hcase with hdoc | hao
    · by_cases hin : a ∈ st.orderedItems
      · exact Or.inl hin
      · refine Or.inr ((hunord a).mpr ⟨hdoc, ?_⟩)
        intro hc
        exact hin ((hordmem a).mpr hc)
    · exact Or.inl hao
  · intro a _ hdoc hspec
    constructor
    · intro hc
      exact hspec ((hordmem a).mp hc)
    · intro hc
      exact hdoc ((hunord a).mp hc).1
  · intro hnd
    rw [hord]
    exact hnd

/-- Witness for the amended claim C2 on the concrete archive archW. -/
theorem claim_c2_witness :
    openFile 10 archW = some (true, stW) ∧
    (∃ en, usedRootfile archW = some en ∧
      (∀ a, a ∈ keysA stW.items → ¬(a ∈ stW.orderedItems ∧ a ∈ stW.unorderedItems)) ∧
      (∀ a, a ∈ keysA stW.items → (a ∈ docIdsOf en.xml ∨ a ∈ stW.orderedItems) →
        (a ∈ stW.orderedItems ∨ a ∈ stW.unorderedItems)) ∧
      (∀ a, a ∈ keysA stW.items → a ∉ docIdsOf en.xml → a ∉ orderedSpecOf en.xml →
        (a ∉ stW.orderedItems ∧ a ∉ stW.unorderedItems)) ∧
      ((orderedSpecOf en.xml).Nodup → stW.orderedItems.Nodup)) := by
  exact ⟨rfl, claim_c2_amended 10 archW stW rfl⟩

/-! Claim C7: the head-metadata loop of parseToc. -/

/-- Claim C7's failing input, evaluated on the code. The NCX head of the
fixture holds the meta pairs (a, 1) and (b, 2) — specHeadMetaPairs states
what the claim says parseToc stores — yet the parsed table of contents
holds only the first pair: the loop advances with
head.nextSiblingElement("navPoint"), which is null in a conforming NCX,
so the loop exits after one iteration (the general conjunct: with no
navPoint sibling the loop stores exactly the first meta, whatever else the
head holds). -/
theorem claim_c7_bug :
    openFile 10 archW = some (true, stW) ∧
    specHeadMetaPairs tocRootC = [("a", "1"), ("b", "2")] ∧
    stW.toc.metadata = [("a", "1")] ∧
    lookupA "b" stW.toc.metadata = none ∧
    (∀ (fuel : Nat) (m1 : XNode) (nm : List (String × String)),
      tocHeadLoop (fuel + 2) (some m1) none nm
        = some (insertA (m1.attr "name") (m1.attr "content") nm)) := by
  refine ⟨rfl, by decide, by decide, by decide, ?_⟩
  intro fuel m1 nm
  rfl

end EBookEdit
